import Mathlib

/-!
Verification of the day-16 and day-19 solvers of an Advent-of-Code 2022
repository (files `src/day_16.py` and `src/day_19.py`), against the
repository's design specification.

The Python code is shallowly embedded: dictionaries keyed by a fixed enum
become total functions, Python sets become `Finset`s, the module-level
mutable `BEST_SO_FAR` of day 19 becomes an explicitly threaded `Int` value
(the functions return the pair of their result and the updated best), and
a Python `assert` that can fail is modelled by an `Option` result, where
`none` marks the raised `AssertionError`.  `float('inf')` distances of the
Floyd-Warshall routine become `ℕ∞ = WithTop ℕ`.
-/

set_option linter.unusedVariables false
set_option linter.unusedSectionVars false

/-! ## Day 19: data model (`Material`, `MaterialMap`, `Blueprint`) -/

/-- The `Material` enum of `day_19.py`.  The constructor order mirrors the
Python definition order (`GEODE`, `OBSIDIAN`, `CLAY`, `ORE`), which is the
iteration order of `for m in Material`. -/
inductive Material : Type
  | geode
  | obsidian
  | clay
  | ore
deriving DecidableEq, Repr

/-- Iteration order of `for m in Material` in Python. -/
def materialList : List Material :=
  [Material.geode, Material.obsidian, Material.clay, Material.ore]

/-- Python `MaterialMap = Dict[Material, int]`: every key is always present. -/
def MaterialMap : Type := Material → ℕ

/-- The `Blueprint` dataclass: a number and, for each robot type, the cost
of that robot in each material. -/
structure Blueprint : Type where
  num : ℕ
  robot_costs : Material → MaterialMap

/-- Python `_is_robot_affordable`: every required material is available. -/
def is_robot_affordable (blueprint : Blueprint) (mat_inventory : MaterialMap)
    (robot_type : Material) : Bool :=
  materialList.all
    (fun req_mat => blueprint.robot_costs robot_type req_mat ≤ mat_inventory req_mat)

/-- Python `sum(range(r, r + t))` for naturals, the quadratic optimistic series of
the upper bound. -/
def sumFrom (r t : ℕ) : ℕ := ∑ i ∈ Finset.range t, (r + i)

/-- Python `_get_geode_num_upper_bound`: current geodes plus the series obtained by
optimistically assuming one further geode robot per remaining minute. -/
def get_geode_num_upper_bound (time_left : ℕ) (material_inventory : MaterialMap)
    (robot_inventory : MaterialMap) : ℕ :=
  material_inventory Material.geode +
    sumFrom (robot_inventory Material.geode) time_left

/-- The `max(...)` of the four per-robot-type costs of `target_robot`,
computed in the Python iteration order. -/
def maxRobotCost (blueprint : Blueprint) (target_robot : Material) : ℕ :=
  max (max (max (blueprint.robot_costs Material.geode target_robot)
    (blueprint.robot_costs Material.obsidian target_robot))
    (blueprint.robot_costs Material.clay target_robot))
    (blueprint.robot_costs Material.ore target_robot)

/-- The inventory after buying `target_robot`: pay its costs, then gain one
unit per robot of the (old) robot inventory (`_update_material_inventory`). -/
def buyMat (blueprint : Blueprint) (mat rob : MaterialMap) (target_robot : Material) :
    MaterialMap :=
  fun m => mat m - blueprint.robot_costs target_robot m + rob m

/-- The robot inventory after buying `target_robot`. -/
def buyRob (rob : MaterialMap) (target_robot : Material) : MaterialMap :=
  fun m => if m = target_robot then rob m + 1 else rob m

/-- The inventory after idling one minute (`_update_material_inventory`). -/
def idleMat (mat rob : MaterialMap) : MaterialMap :=
  fun m => mat m + rob m

/-- Python `_get_max_geodes` of `day_19.py`.  The module-level mutable `BEST_SO_FAR`
is threaded explicitly: the last argument is its value on entry and the
second component of the result is its value on return.  The four recursive
calls of the `max(... for new_target in Material)` generator are evaluated
left to right, each seeing the best value produced by the previous one,
exactly as the Python global does. -/
def get_max_geodes (blueprint : Blueprint) :
    ℕ → MaterialMap → MaterialMap → Material → Int → ℕ × Int
  | 0, mat, _, _, best =>
      (mat Material.geode, max best (mat Material.geode))
  | t + 1, mat, rob, target_robot, best =>
      if (get_geode_num_upper_bound (t + 1) mat rob : Int) ≤ best then
        (mat Material.geode, best)
      else if target_robot ≠ Material.geode ∧
          maxRobotCost blueprint target_robot ≤ rob target_robot then
        (mat Material.geode, best)
      else if is_robot_affordable blueprint mat target_robot then
        let mat' := buyMat blueprint mat rob target_robot
        let rob' := buyRob rob target_robot
        let p1 := get_max_geodes blueprint t mat' rob' Material.geode best
        let p2 := get_max_geodes blueprint t mat' rob' Material.obsidian p1.2
        let p3 := get_max_geodes blueprint t mat' rob' Material.clay p2.2
        let p4 := get_max_geodes blueprint t mat' rob' Material.ore p3.2
        (max (max (max p1.1 p2.1) p3.1) p4.1, p4.2)
      else
        get_max_geodes blueprint t (idleMat mat rob) rob target_robot best

/-- Modelled from the spec: the same recursion as `get_max_geodes` with the
upper-bound pruning (and hence the best-so-far bookkeeping) removed.  The
spec's claim that pruning "never changes the returned maximum" is a
comparison with this prune-free search; the repository itself only contains
the pruned version. -/
def get_max_geodes_noprune (blueprint : Blueprint) :
    ℕ → MaterialMap → MaterialMap → Material → ℕ
  | 0, mat, _, _ => mat Material.geode
  | t + 1, mat, rob, target_robot =>
      if target_robot ≠ Material.geode ∧
          maxRobotCost blueprint target_robot ≤ rob target_robot then
        mat Material.geode
      else if is_robot_affordable blueprint mat target_robot then
        let mat' := buyMat blueprint mat rob target_robot
        let rob' := buyRob rob target_robot
        max (max (max (get_max_geodes_noprune blueprint t mat' rob' Material.geode)
          (get_max_geodes_noprune blueprint t mat' rob' Material.obsidian))
          (get_max_geodes_noprune blueprint t mat' rob' Material.clay))
          (get_max_geodes_noprune blueprint t mat' rob' Material.ore)
      else
        get_max_geodes_noprune blueprint t (idleMat mat rob) rob target_robot

/-- The initial material inventory of the part-1/part-2 entry points. -/
def initMat : MaterialMap := fun _ => 0

/-- The initial robot inventory: one ore robot. -/
def initRob : MaterialMap := fun m => if m = Material.ore then 1 else 0

/-- Python `_get_max_geodes_part1`.  The argument `g` is the value the module-level
`BEST_SO_FAR` happens to hold when the call starts (possibly left over from
an earlier search); the function body begins by resetting it to `-1`, so `g`
is never read.  The result pairs the returned maximum with the final value
of `BEST_SO_FAR`. -/
def get_max_geodes_part1 (g : Int) (blueprint : Blueprint) : ℕ × Int :=
  let best0 : Int := -1
  let p1 := get_max_geodes blueprint 24 initMat initRob Material.geode best0
  let p2 := get_max_geodes blueprint 24 initMat initRob Material.obsidian p1.2
  let p3 := get_max_geodes blueprint 24 initMat initRob Material.clay p2.2
  let p4 := get_max_geodes blueprint 24 initMat initRob Material.ore p3.2
  (max (max (max p1.1 p2.1) p3.1) p4.1, p4.2)

/-- Modelled from the spec: the part-1 entry point driving the prune-free
search, the comparison point for the no-false-pruning claim. -/
def get_max_geodes_part1_noprune (blueprint : Blueprint) : ℕ :=
  max (max (max (get_max_geodes_noprune blueprint 24 initMat initRob Material.geode)
    (get_max_geodes_noprune blueprint 24 initMat initRob Material.obsidian))
    (get_max_geodes_noprune blueprint 24 initMat initRob Material.clay))
    (get_max_geodes_noprune blueprint 24 initMat initRob Material.ore)

/-! ## Day 19: the recursion's call relation -/

/-- A search state of `_get_max_geodes`: time left, the two inventories, the
target robot, and the value of `BEST_SO_FAR` on entry. -/
structure GeodeState : Type where
  time : ℕ
  mat : MaterialMap
  rob : MaterialMap
  target : Material
  best : Int

/-- The recursive calls actually performed by `get_max_geodes`: one step per
direct recursive invocation, including the best-so-far value each child is
entered with (children of a buy step are entered left to right, each seeing
the best value returned by its predecessor). -/
inductive GeodeCalls (blueprint : Blueprint) : GeodeState → GeodeState → Prop
  | buy1 {t : ℕ} {mat rob : MaterialMap} {tgt : Material} {b : Int}
      (hub : ¬ (get_geode_num_upper_bound (t + 1) mat rob : Int) ≤ b)
      (hp3 : ¬ (tgt ≠ Material.geode ∧ maxRobotCost blueprint tgt ≤ rob tgt))
      (haff : is_robot_affordable blueprint mat tgt = true) :
      GeodeCalls blueprint ⟨t + 1, mat, rob, tgt, b⟩
        ⟨t, buyMat blueprint mat rob tgt, buyRob rob tgt, Material.geode, b⟩
  | buy2 {t : ℕ} {mat rob : MaterialMap} {tgt : Material} {b : Int}
      (hub : ¬ (get_geode_num_upper_bound (t + 1) mat rob : Int) ≤ b)
      (hp3 : ¬ (tgt ≠ Material.geode ∧ maxRobotCost blueprint tgt ≤ rob tgt))
      (haff : is_robot_affordable blueprint mat tgt = true) :
      GeodeCalls blueprint ⟨t + 1, mat, rob, tgt, b⟩
        ⟨t, buyMat blueprint mat rob tgt, buyRob rob tgt, Material.obsidian,
          (get_max_geodes blueprint t (buyMat blueprint mat rob tgt)
            (buyRob rob tgt) Material.geode b).2⟩
  | buy3 {t : ℕ} {mat rob : MaterialMap} {tgt : Material} {b : Int}
      (hub : ¬ (get_geode_num_upper_bound (t + 1) mat rob : Int) ≤ b)
      (hp3 : ¬ (tgt ≠ Material.geode ∧ maxRobotCost blueprint tgt ≤ rob tgt))
      (haff : is_robot_affordable blueprint mat tgt = true) :
      GeodeCalls blueprint ⟨t + 1, mat, rob, tgt, b⟩
        ⟨t, buyMat blueprint mat rob tgt, buyRob rob tgt, Material.clay,
          (get_max_geodes blueprint t (buyMat blueprint mat rob tgt)
            (buyRob rob tgt) Material.obsidian
            (get_max_geodes blueprint t (buyMat blueprint mat rob tgt)
              (buyRob rob tgt) Material.geode b).2).2⟩
  | buy4 {t : ℕ} {mat rob : MaterialMap} {tgt : Material} {b : Int}
      (hub : ¬ (get_geode_num_upper_bound (t + 1) mat rob : Int) ≤ b)
      (hp3 : ¬ (tgt ≠ Material.geode ∧ maxRobotCost blueprint tgt ≤ rob tgt))
      (haff : is_robot_affordable blueprint mat tgt = true) :
      GeodeCalls blueprint ⟨t + 1, mat, rob, tgt, b⟩
        ⟨t, buyMat blueprint mat rob tgt, buyRob rob tgt, Material.ore,
          (get_max_geodes blueprint t (buyMat blueprint mat rob tgt)
            (buyRob rob tgt) Material.clay
            (get_max_geodes blueprint t (buyMat blueprint mat rob tgt)
              (buyRob rob tgt) Material.obsidian
              (get_max_geodes blueprint t (buyMat blueprint mat rob tgt)
                (buyRob rob tgt) Material.geode b).2).2).2⟩
  | wait {t : ℕ} {mat rob : MaterialMap} {tgt : Material} {b : Int}
      (hub : ¬ (get_geode_num_upper_bound (t + 1) mat rob : Int) ≤ b)
      (hp3 : ¬ (tgt ≠ Material.geode ∧ maxRobotCost blueprint tgt ≤ rob tgt))
      (haff : ¬ is_robot_affordable blueprint mat tgt = true) :
      GeodeCalls blueprint ⟨t + 1, mat, rob, tgt, b⟩
        ⟨t, idleMat mat rob, rob, tgt, b⟩

/-! ## Day 16: the branch-and-bound pressure search -/

/-- Combination of the optional results of the branch children: Python's
`max(total_pressures)` when every recursive call returned, and a propagated
`AssertionError` (`none`) when any child raised. -/
def mergeOpt : Option ℕ → Option ℕ → Option ℕ
  | some x, some y => some (max x y)
  | _, _ => none

instance : Std.Commutative mergeOpt := ⟨by
  intro a b
  cases a <;> cases b <;> simp [mergeOpt, Nat.max_comm]⟩

instance : Std.Associative mergeOpt := ⟨by
  intro a b c
  cases a <;> cases b <;> cases c <;> simp [mergeOpt, Nat.max_assoc]⟩

/-- Python `_get_max_pressure_internal` of `_get_max_pressure` (part 1),
with an explicit `fuel` argument to make the recursion structural.  A call
whose `time_left` is at most `fuel` never reaches the `fuel = 0` branch,
because every recursive call strictly decreases `time_left`; the wrapper
`get_max_pressure_internal` instantiates `fuel := time_left`.  The failing
`assert len(valves_to_consider) > 0` is modelled by `none`. -/
def get_max_pressure_rec (flow_rates : String → ℕ)
    (distances : String → String → ℕ) :
    ℕ → String → ℕ → ℕ → Finset String → Finset String → Option ℕ
  | fuel, last_valve, time_left, total_so_far, valves_activated, all_valves =>
    if time_left = 0 then some total_so_far
    else if valves_activated = all_valves then some total_so_far
    else
      let valves_to_consider := all_valves \ valves_activated
      if valves_to_consider = ∅ then none
      else
        match fuel with
        | 0 => none
        | fuel + 1 =>
          valves_to_consider.fold mergeOpt (some 0) (fun valve =>
            let new_time_left := time_left - distances last_valve valve - 1
            get_max_pressure_rec flow_rates distances fuel valve new_time_left
              (total_so_far + new_time_left * flow_rates valve)
              (insert valve valves_activated) all_valves)

/-- Python `_get_max_pressure_internal` (part 1): the fuel is instantiated
with the time budget, which bounds the recursion depth. -/
def get_max_pressure_internal (flow_rates : String → ℕ)
    (distances : String → String → ℕ) (last_valve : String) (time_left : ℕ)
    (total_so_far : ℕ) (valves_activated all_valves : Finset String) : Option ℕ :=
  get_max_pressure_rec flow_rates distances time_left last_valve time_left
    total_so_far valves_activated all_valves

/-- The set of valves of interest: valves of positive flow rate plus the
start valve `"AA"`.  `valves` is the key set of the `flow_rates` dict. -/
def valvesOfInterest (valves : Finset String) (flow_rates : String → ℕ) :
    Finset String :=
  insert "AA" (valves.filter (fun valve => 0 < flow_rates valve))

/-- Python `_get_max_pressure`: start at `"AA"` (already counted as
activated) with 30 minutes. -/
def get_max_pressure (valves : Finset String) (flow_rates : String → ℕ)
    (distances : String → String → ℕ) : Option ℕ :=
  get_max_pressure_internal flow_rates distances "AA" 30 0 {"AA"}
    (valvesOfInterest valves flow_rates)

/-- A state of the part-1 recursion (the enclosing `flow_rates`,
 `distances` and `all_valves` stay fixed). -/
structure PressureState : Type where
  last_valve : String
  time_left : ℕ
  total_so_far : ℕ
  valves_activated : Finset String
deriving DecidableEq

/-- The recursive calls performed by the part-1 search: from a state that
has time left and unopened valves, the loop body recurses into EVERY valve
of `all_valves - valves_activated`, with the new time clamped at zero. -/
inductive PressureCalls (flow_rates : String → ℕ)
    (distances : String → String → ℕ) (all_valves : Finset String) :
    PressureState → PressureState → Prop
  | step (s : PressureState) (valve : String)
      (htime : s.time_left ≠ 0)
      (hall : s.valves_activated ≠ all_valves)
      (hmem : valve ∈ all_valves \ s.valves_activated) :
      PressureCalls flow_rates distances all_valves s
        ⟨valve, s.time_left - distances s.last_valve valve - 1,
          s.total_so_far + (s.time_left - distances s.last_valve valve - 1) *
            flow_rates valve,
          insert valve s.valves_activated⟩

/-- The fast-forward amount of the part-2 search: when both actors are still
travelling, time jumps by the smaller remaining travel time, otherwise no
fast-forward happens. -/
def fastForwardTime (time_left_p1 time_left_p2 : ℕ) : ℕ :=
  if 0 < time_left_p1 ∧ 0 < time_left_p2 then min time_left_p1 time_left_p2
  else 0

/-- Python `_get_max_pressure_internal` of `_get_max_pressure_part2`, with a
structural `fuel` bounding the number of unopened valves.  Both failing
asserts are modelled by `none`: the `assert False` of the actor dispatch
(taken when neither timer is zero after fast-forwarding) and the
`assert len(valves_to_consider) > 0`. -/
def get_max_pressure_part2_rec (flow_rates : String → ℕ)
    (distances : String → String → ℕ) :
    ℕ → String → String → ℕ → ℕ → ℕ → ℕ → Finset String → Finset String →
      Option ℕ
  | fuel, curr_valve_p1, curr_valve_p2, overall_time_left0, time_left_p1_0,
      time_left_p2_0, total_so_far, valves_activated, all_valves =>
    let ff := fastForwardTime time_left_p1_0 time_left_p2_0
    let time_left_p1 := time_left_p1_0 - ff
    let time_left_p2 := time_left_p2_0 - ff
    let overall_time_left := overall_time_left0 - ff
    if overall_time_left = 0 then some total_so_far
    else if valves_activated = all_valves then some total_so_far
    else if time_left_p1 ≠ 0 ∧ time_left_p2 ≠ 0 then none
    else
      let curr_valve := if time_left_p1 = 0 then curr_valve_p1 else curr_valve_p2
      let valves_to_consider := all_valves \ valves_activated
      if valves_to_consider = ∅ then none
      else
        match fuel with
        | 0 => none
        | fuel + 1 =>
          valves_to_consider.fold mergeOpt (some 0) (fun valve =>
            let new_time_left := distances curr_valve valve + 1
            let valve_payoff :=
              (overall_time_left - new_time_left) * flow_rates valve
            if time_left_p1 = 0 then
              get_max_pressure_part2_rec flow_rates distances fuel valve
                curr_valve_p2 overall_time_left new_time_left time_left_p2
                (total_so_far + valve_payoff) (insert valve valves_activated)
                all_valves
            else
              get_max_pressure_part2_rec flow_rates distances fuel
                curr_valve_p1 valve overall_time_left time_left_p1 new_time_left
                (total_so_far + valve_payoff) (insert valve valves_activated)
                all_valves)

/-- Python `_get_max_pressure_part2`: both actors start at `"AA"` with their
timers at zero and 26 minutes overall.  The fuel is the number of valves
that can still be opened, which bounds the recursion depth. -/
def get_max_pressure_part2 (valves : Finset String) (flow_rates : String → ℕ)
    (distances : String → String → ℕ) : Option ℕ :=
  let all_valves := valvesOfInterest valves flow_rates
  get_max_pressure_part2_rec flow_rates distances (all_valves \ {"AA"}).card
    "AA" "AA" 26 0 0 0 {"AA"} all_valves

/-! ## Day 16: all-pairs shortest paths (`_get_distances_table`) -/

/-- Directed walks in the adjacency map `adj`: `Walk adj u v n` holds when
there is a walk of exactly `n` edges from `u` to `v`. -/
inductive Walk {V : Type} (adj : V → Finset V) : V → V → ℕ → Prop
  | nil (u : V) : Walk adj u u 0
  | cons {u x v : V} {n : ℕ} (hadj : x ∈ adj u) (hw : Walk adj x v n) :
      Walk adj u v (n + 1)

/-- Walks whose intermediate vertices (all vertices except the two
endpoints) belong to the list `S`; the invariant of the Floyd-Warshall
relaxation. -/
inductive WalkVia {V : Type} (adj : V → Finset V) (S : List V) : V → V → ℕ → Prop
  | nil (u : V) : WalkVia adj S u u 0
  | single {u v : V} (hadj : v ∈ adj u) : WalkVia adj S u v 1
  | cons {u x v : V} {n : ℕ} (hadj : x ∈ adj u) (hS : x ∈ S)
      (hw : WalkVia adj S x v n) : WalkVia adj S u v (n + 1)

/-- The initial distance table of `_get_distances_table`: `0` on the
diagonal (written last in the Python code, so it wins over a self-loop
edge), `1` for an edge, infinite otherwise. -/
def fwInit {V : Type} [DecidableEq V] (adj : V → Finset V) (u v : V) : ℕ∞ :=
  if u = v then 0 else if v ∈ adj u then 1 else ⊤

/-- One relaxation of the pair `(u, v)` through the intermediate vertex `w`:
the stored distance is replaced when the path through `w` is shorter, i.e.
it becomes the minimum of the two candidates. -/
def fwRelax {V : Type} [DecidableEq V] (w u v : V) (d : V → V → ℕ∞) :
    V → V → ℕ∞ :=
  fun a b => if a = u ∧ b = v then min (d u v) (d u w + d w v) else d a b

/-- The two inner loops of the Floyd-Warshall step: relax every ordered pair
through `w`, mutating the table in place (each relaxation sees the previous
ones). -/
def fwRound {V : Type} [DecidableEq V] (verts : List V) (w : V)
    (d : V → V → ℕ∞) : V → V → ℕ∞ :=
  verts.foldl (fun d u => verts.foldl (fun d v => fwRelax w u v d) d) d

/-- The triple loop of `_get_distances_table`. -/
def fwTable {V : Type} [DecidableEq V] (verts : List V) (adj : V → Finset V) :
    V → V → ℕ∞ :=
  verts.foldl (fun d w => fwRound verts w d) (fwInit adj)

/-- Python `_get_distances_table`: run Floyd-Warshall from the adjacency
table, then `assert` that no pair of keys is still at infinite distance
(modelled by `none`); on success convert the entries to plain naturals.
`verts` is the key list of the adjacency dict. -/
def get_distances_table {V : Type} [DecidableEq V] (verts : List V)
    (adj : V → Finset V) : Option (V → V → ℕ) :=
  if verts.all (fun u => verts.all (fun v => fwTable verts adj u v ≠ ⊤)) then
    some (fun u v => (fwTable verts adj u v).untop' 0)
  else
    none

/-! ## Input parsers (`_parse_data_file` of day 16 and day 19) -/

/-- Python regex whitespace class: the characters matched by a `\s` (so a
`\S` matches exactly the other characters), restricted to ASCII as in the
puzzle inputs. -/
def isPySpace (c : Char) : Bool :=
  c = ' ' || c = '\t' || c = '\n' || c = '\r' || c = '\x0b' || c = '\x0c'

/-- Consumption of a literal part of the regex: succeeds with the rest of
the input exactly when the pattern `lit` is a prefix of the input. -/
def dropLit : List Char → List Char → Option (List Char)
  | [], rest => some rest
  | _, [] => none
  | l :: ls, c :: cs => if c = l then dropLit ls cs else none

/-- Numeric value of a digit run, as Python's `int(...)` of the group. -/
def digitsToNat (ds : List Char) : ℕ :=
  ds.foldl (fun n c => 10 * n + (c.toNat - 48)) 0

/-- Consumption of a `\d+` group: the (greedy, nonempty) digit run and the
remaining input. -/
def parseNum (cs : List Char) : Option (ℕ × List Char) :=
  let ds := cs.takeWhile Char.isDigit
  if ds = [] then none
  else some (digitsToNat ds, cs.dropWhile Char.isDigit)

/-- Consumption of the regex wildcard: one character other than a
newline. -/
def dropAny : List Char → Option (List Char)
  | [] => none
  | c :: cs => if c = '\n' then none else some cs

/-- Python `str.split(",")` on a character list. -/
def splitComma : List Char → List (List Char)
  | [] => [[]]
  | c :: cs =>
    if c = ',' then [] :: splitComma cs
    else
      match splitComma cs with
      | [] => [[c]]
      | p :: ps => (c :: p) :: ps

/-- Python `str.strip()`: remove leading and trailing whitespace. -/
def stripWS (l : List Char) : List Char :=
  ((l.dropWhile isPySpace).reverse.dropWhile isPySpace).reverse

/-- Application of the day-16 line pattern
`Valve (\S+) has flow rate=(\d+); tunnel[s]* lead[s]* to valve[s]* (.*)` to
one line, as `re.match` does (anchored at the start, not at the end):
`none` is a failed match (the failing `assert match is not None`); a
successful match yields the valve name, the flow rate, and the set of
stripped neighbour names from splitting the last group on commas. -/
def parseLine16 (line : List Char) : Option (List Char × ℕ × Finset (List Char)) := do
  let r1 ← dropLit "Valve ".toList line
  let name := r1.takeWhile (fun c => !isPySpace c)
  if name = [] then none
  else do
    let r2 := r1.dropWhile (fun c => !isPySpace c)
    let r3 ← dropLit " has flow rate=".toList r2
    let (rate, r4) ← parseNum r3
    let r5 ← dropLit "; tunnel".toList r4
    let r6 := r5.dropWhile (fun c => c = 's')
    let r7 ← dropLit " lead".toList r6
    let r8 := r7.dropWhile (fun c => c = 's')
    let r9 ← dropLit " to valve".toList r8
    let r10 := r9.dropWhile (fun c => c = 's')
    let r11 ← dropLit " ".toList r10
    let conn := r11.takeWhile (fun c => c ≠ '\n')
    some (name, rate, ((splitComma conn).map stripWS).toFinset)

/-- The loop of day 16's `_parse_data_file` with the two dictionaries as
accumulators (later lines overwrite earlier entries with the same name, as
dict assignment does). -/
def parse_data_file_day16_aux :
    List (List Char) → (List Char → Option ℕ) →
      (List Char → Option (Finset (List Char))) →
      Option ((List Char → Option ℕ) × (List Char → Option (Finset (List Char))))
  | [], flow_rates, adj_valves => some (flow_rates, adj_valves)
  | line :: rest, flow_rates, adj_valves =>
    match parseLine16 line with
    | none => none
    | some (name, rate, conns) =>
      parse_data_file_day16_aux rest
        (fun n => if n = name then some rate else flow_rates n)
        (fun n => if n = name then some conns else adj_valves n)

/-- Python `_parse_data_file` of `day_16.py`, applied to the already split
lines of the data file: `none` when some line fails to match (the parse
aborts with no partial result), otherwise the flow-rate and adjacency
dictionaries as lookup functions. -/
def parse_data_file_day16 (lines : List (List Char)) :
    Option ((List Char → Option ℕ) × (List Char → Option (Finset (List Char)))) :=
  parse_data_file_day16_aux lines (fun _ => none) (fun _ => none)

/-- A token of the day-19 line pattern: a literal stretch, a captured
`\\d+` group, or the unescaped `.` wildcard. -/
inductive PatTok : Type
  | lit (s : String)
  | num
  | any

/-- Sequential application of pattern tokens to the input, as `re.match`
does (anchored at the start, not at the end), collecting the captured
numeric groups in order. -/
def runPat : List PatTok → List Char → Option (List ℕ × List Char)
  | [], cs => some ([], cs)
  | PatTok.lit s :: ts, cs =>
    match dropLit s.toList cs with
    | none => none
    | some r => runPat ts r
  | PatTok.any :: ts, cs =>
    match dropAny cs with
    | none => none
    | some r => runPat ts r
  | PatTok.num :: ts, cs =>
    match parseNum cs with
    | none => none
    | some (n, r) =>
      match runPat ts r with
      | none => none
      | some (ns, r2) => some (n :: ns, r2)

/-- The day-19 line pattern of `_parse_data_file`, token by token: all the
fixed text is literal except the unescaped `.` closing each cost sentence,
which matches any character but a newline; input after the matched prefix
is ignored. -/
def day19Pattern : List PatTok :=
  [PatTok.lit "Blueprint ", PatTok.num,
   PatTok.lit ": Each ore robot costs ", PatTok.num, PatTok.lit " ore",
   PatTok.any,
   PatTok.lit " Each clay robot costs ", PatTok.num, PatTok.lit " ore",
   PatTok.any,
   PatTok.lit " Each obsidian robot costs ", PatTok.num,
   PatTok.lit " ore and ", PatTok.num, PatTok.lit " clay",
   PatTok.any,
   PatTok.lit " Each geode robot costs ", PatTok.num,
   PatTok.lit " ore and ", PatTok.num, PatTok.lit " obsidian",
   PatTok.any]

/-- Application of the day-19 line pattern to one line: `none` is a failed
match (the failing `assert`); a successful match yields the blueprint, with
the six captured costs placed as `_parse_data_file` of `day_19.py` does and
every other cost zero. -/
def parseLine19 (line : List Char) : Option Blueprint :=
  match runPat day19Pattern line with
  | some ([blueprint_num, ore_robot_cost, clay_robot_cost, obs_robot_ore_cost,
      obs_robot_clay_cost, geode_robot_ore_cost, geode_robot_obs_cost], _) =>
    some ⟨blueprint_num, fun robot m =>
      match robot, m with
      | Material.ore, Material.ore => ore_robot_cost
      | Material.clay, Material.ore => clay_robot_cost
      | Material.obsidian, Material.ore => obs_robot_ore_cost
      | Material.obsidian, Material.clay => obs_robot_clay_cost
      | Material.geode, Material.ore => geode_robot_ore_cost
      | Material.geode, Material.obsidian => geode_robot_obs_cost
      | _, _ => 0⟩
  | _ => none

/-- Python `_parse_data_file` of `day_19.py` applied to the split lines:
`none` when some line fails to match, otherwise the list of blueprints. -/
def parse_data_file_day19 : List (List Char) → Option (List Blueprint)
  | [] => some []
  | line :: rest =>
    match parseLine19 line with
    | none => none
    | some blueprint =>
      match parse_data_file_day19 rest with
      | none => none
      | some blueprints => some (blueprint :: blueprints)

/-! ## Day 19 lemmas -/

lemma sumFrom_zero (r : ℕ) : sumFrom r 0 = 0 := by simp [sumFrom]

lemma sumFrom_snoc (r t : ℕ) : sumFrom r (t + 1) = sumFrom r t + (r + t) := by
  unfold sumFrom
  rw [Finset.sum_range_succ]

lemma sumFrom_succ (r t : ℕ) : sumFrom r (t + 1) = r + sumFrom (r + 1) t := by
  induction t with
  | zero => simp [sumFrom]
  | succ t ih =>
    rw [sumFrom_snoc r (t + 1), ih, sumFrom_snoc (r + 1) t]
    omega

lemma le_sumFrom_succ (r t : ℕ) : r + sumFrom r t ≤ sumFrom r (t + 1) := by
  rw [sumFrom_snoc]
  omega

lemma sumFrom_mono (r r' t : ℕ) (h : r ≤ r') : sumFrom r t ≤ sumFrom r' t :=
  Finset.sum_le_sum fun i _ => by omega

lemma buyRob_geode (rob : MaterialMap) (tgt : Material) :
    buyRob rob tgt Material.geode =
      if Material.geode = tgt then rob Material.geode + 1 else rob Material.geode := rfl

lemma ub_buy_le (bp : Blueprint) (mat rob : MaterialMap) (tgt : Material) (t : ℕ) :
    get_geode_num_upper_bound t (buyMat bp mat rob tgt) (buyRob rob tgt) ≤
      get_geode_num_upper_bound (t + 1) mat rob := by
  unfold get_geode_num_upper_bound buyMat buyRob
  by_cases h : Material.geode = tgt
  · simp only [if_pos h]
    rw [sumFrom_succ]
    have := sumFrom_mono (rob Material.geode + 1) (rob Material.geode + 1) t le_rfl
    omega
  · simp only [if_neg h]
    have := le_sumFrom_succ (rob Material.geode) t
    omega

lemma ub_idle_le (mat rob : MaterialMap) (t : ℕ) :
    get_geode_num_upper_bound t (idleMat mat rob) rob ≤
      get_geode_num_upper_bound (t + 1) mat rob := by
  unfold get_geode_num_upper_bound idleMat
  have := le_sumFrom_succ (rob Material.geode) t
  omega

lemma geode_le_ub (mat rob : MaterialMap) (t : ℕ) :
    mat Material.geode ≤ get_geode_num_upper_bound t mat rob := by
  unfold get_geode_num_upper_bound
  omega

/-- The prune-free search never exceeds the optimistic upper bound. -/
lemma noprune_le_upper_bound (bp : Blueprint) :
    ∀ (t : ℕ) (mat rob : MaterialMap) (tgt : Material),
      get_max_geodes_noprune bp t mat rob tgt ≤ get_geode_num_upper_bound t mat rob := by
  intro t
  induction t with
  | zero =>
    intro mat rob tgt
    simp [get_max_geodes_noprune, get_geode_num_upper_bound]
  | succ t ih =>
    intro mat rob tgt
    rw [get_max_geodes_noprune]
    split
    · exact geode_le_ub mat rob (t + 1)
    · split
      · refine max_le (max_le (max_le ?_ ?_) ?_) ?_ <;>
          exact le_trans (ih _ _ _) (ub_buy_le bp mat rob tgt t)
      · exact le_trans (ih _ _ _) (ub_idle_le mat rob t)

set_option maxHeartbeats 1000000 in
/-- Unfolding of `get_max_geodes` at a positive time, with the local
bindings expanded. -/
lemma get_max_geodes_succ (bp : Blueprint) (t : ℕ) (mat rob : MaterialMap)
    (tgt : Material) (b : Int) :
    get_max_geodes bp (t + 1) mat rob tgt b =
      if (get_geode_num_upper_bound (t + 1) mat rob : Int) ≤ b then
        (mat Material.geode, b)
      else if tgt ≠ Material.geode ∧ maxRobotCost bp tgt ≤ rob tgt then
        (mat Material.geode, b)
      else if is_robot_affordable bp mat tgt then
        (max (max (max
          (get_max_geodes bp t (buyMat bp mat rob tgt) (buyRob rob tgt)
            Material.geode b).1
          (get_max_geodes bp t (buyMat bp mat rob tgt) (buyRob rob tgt)
            Material.obsidian
            (get_max_geodes bp t (buyMat bp mat rob tgt) (buyRob rob tgt)
              Material.geode b).2).1)
          (get_max_geodes bp t (buyMat bp mat rob tgt) (buyRob rob tgt)
            Material.clay
            (get_max_geodes bp t (buyMat bp mat rob tgt) (buyRob rob tgt)
              Material.obsidian
              (get_max_geodes bp t (buyMat bp mat rob tgt) (buyRob rob tgt)
                Material.geode b).2).2).1)
          (get_max_geodes bp t (buyMat bp mat rob tgt) (buyRob rob tgt)
            Material.ore
            (get_max_geodes bp t (buyMat bp mat rob tgt) (buyRob rob tgt)
              Material.clay
              (get_max_geodes bp t (buyMat bp mat rob tgt) (buyRob rob tgt)
                Material.obsidian
                (get_max_geodes bp t (buyMat bp mat rob tgt) (buyRob rob tgt)
                  Material.geode b).2).2).2).1,
         (get_max_geodes bp t (buyMat bp mat rob tgt) (buyRob rob tgt)
            Material.ore
            (get_max_geodes bp t (buyMat bp mat rob tgt) (buyRob rob tgt)
              Material.clay
              (get_max_geodes bp t (buyMat bp mat rob tgt) (buyRob rob tgt)
                Material.obsidian
                (get_max_geodes bp t (buyMat bp mat rob tgt) (buyRob rob tgt)
                  Material.geode b).2).2).2).2)
      else
        get_max_geodes bp t (idleMat mat rob) rob tgt b := by
  rw [get_max_geodes]

/-- Unfolding of `get_max_geodes_noprune` at a positive time, with the
local bindings expanded. -/
lemma get_max_geodes_noprune_succ (bp : Blueprint) (t : ℕ)
    (mat rob : MaterialMap) (tgt : Material) :
    get_max_geodes_noprune bp (t + 1) mat rob tgt =
      if tgt ≠ Material.geode ∧ maxRobotCost bp tgt ≤ rob tgt then
        mat Material.geode
      else if is_robot_affordable bp mat tgt then
        max (max (max
          (get_max_geodes_noprune bp t (buyMat bp mat rob tgt) (buyRob rob tgt)
            Material.geode)
          (get_max_geodes_noprune bp t (buyMat bp mat rob tgt) (buyRob rob tgt)
            Material.obsidian))
          (get_max_geodes_noprune bp t (buyMat bp mat rob tgt) (buyRob rob tgt)
            Material.clay))
          (get_max_geodes_noprune bp t (buyMat bp mat rob tgt) (buyRob rob tgt)
            Material.ore)
      else
        get_max_geodes_noprune bp t (idleMat mat rob) rob tgt := by
  rw [get_max_geodes_noprune]

/-- Composition of two sequential recursive calls of the threaded search. -/
lemma chain2 (b0 b1 b2 r1 r2 u1 u2 : Int)
    (a1 : b0 ≤ b1) (c1 : b1 ≤ max b0 r1) (m1 : max r1 b1 = max u1 b0)
    (a2 : b1 ≤ b2) (c2 : b2 ≤ max b1 r2) (m2 : max r2 b2 = max u2 b1) :
    b0 ≤ b2 ∧ b2 ≤ max b0 (max r1 r2) ∧
      max (max r1 r2) b2 = max (max u1 u2) b0 := by
  omega

lemma chain4 (P1 P2 P3 P4 : ℕ × Int) (u1 u2 u3 u4 : ℕ) (b : Int)
    (H1 : b ≤ P1.2 ∧ P1.2 ≤ max b (P1.1 : Int) ∧
      max (P1.1 : Int) P1.2 = max (u1 : Int) b)
    (H2 : P1.2 ≤ P2.2 ∧ P2.2 ≤ max P1.2 (P2.1 : Int) ∧
      max (P2.1 : Int) P2.2 = max (u2 : Int) P1.2)
    (H3 : P2.2 ≤ P3.2 ∧ P3.2 ≤ max P2.2 (P3.1 : Int) ∧
      max (P3.1 : Int) P3.2 = max (u3 : Int) P2.2)
    (H4 : P3.2 ≤ P4.2 ∧ P4.2 ≤ max P3.2 (P4.1 : Int) ∧
      max (P4.1 : Int) P4.2 = max (u4 : Int) P3.2) :
    b ≤ P4.2 ∧
    P4.2 ≤ max b ((max (max (max P1.1 P2.1) P3.1) P4.1 : ℕ) : Int) ∧
    max ((max (max (max P1.1 P2.1) P3.1) P4.1 : ℕ) : Int) P4.2 =
      max ((max (max (max u1 u2) u3) u4 : ℕ) : Int) b := by
  obtain ⟨a1, c1, m1⟩ := H1
  obtain ⟨a2, c2, m2⟩ := H2
  obtain ⟨a3, c3, m3⟩ := H3
  obtain ⟨a4, c4, m4⟩ := H4
  obtain ⟨a12, c12, m12⟩ := chain2 b P1.2 P2.2 P1.1 P2.1 u1 u2 a1 c1 m1 a2 c2 m2
  obtain ⟨a13, c13, m13⟩ := chain2 b P2.2 P3.2 (max (P1.1 : Int) P2.1) P3.1
    (max (u1 : Int) u2) u3 a12 c12 m12 a3 c3 m3
  obtain ⟨a14, c14, m14⟩ := chain2 b P3.2 P4.2
    (max (max (P1.1 : Int) P2.1) P3.1) P4.1 (max (max (u1 : Int) u2) u3) u4
    a13 c13 m13 a4 c4 m4
  push_cast
  exact ⟨a14, c14, m14⟩

/-- Invariant of the threaded best-so-far value: it never decreases, it
never exceeds the maximum of its entry value and the returned result, and
pruning never loses information: the maximum of the returned result and the
returned best equals the maximum of the prune-free result and the entry
best. -/
lemma get_max_geodes_spec (bp : Blueprint) :
    ∀ (t : ℕ) (mat rob : MaterialMap) (tgt : Material) (b : Int),
      b ≤ (get_max_geodes bp t mat rob tgt b).2 ∧
      (get_max_geodes bp t mat rob tgt b).2 ≤
        max b ((get_max_geodes bp t mat rob tgt b).1 : Int) ∧
      max ((get_max_geodes bp t mat rob tgt b).1 : Int)
          (get_max_geodes bp t mat rob tgt b).2 =
        max (get_max_geodes_noprune bp t mat rob tgt : Int) b := by
  intro t
  induction t with
  | zero =>
    intro mat rob tgt b
    simp only [get_max_geodes, get_max_geodes_noprune]
    refine ⟨le_max_left _ _, le_refl _, ?_⟩
    omega
  | succ t ih =>
    intro mat rob tgt b
    rw [get_max_geodes_succ]
    by_cases hub : (get_geode_num_upper_bound (t + 1) mat rob : Int) ≤ b
    · rw [if_pos hub]
      have hn := noprune_le_upper_bound bp (t + 1) mat rob tgt
      have hg := geode_le_ub mat rob (t + 1)
      refine ⟨le_refl _, le_max_left _ _, ?_⟩
      dsimp only
      omega
    · rw [if_neg hub, get_max_geodes_noprune_succ]
      by_cases hp3 : tgt ≠ Material.geode ∧ maxRobotCost bp tgt ≤ rob tgt
      · rw [if_pos hp3, if_pos hp3]
        exact ⟨le_refl _, le_max_left _ _, rfl⟩
      · rw [if_neg hp3, if_neg hp3]
        by_cases haff : is_robot_affordable bp mat tgt = true
        · rw [if_pos haff, if_pos haff]
          have ih1 := ih (buyMat bp mat rob tgt) (buyRob rob tgt) Material.geode b
          have ih2 := ih (buyMat bp mat rob tgt) (buyRob rob tgt) Material.obsidian
            (get_max_geodes bp t (buyMat bp mat rob tgt) (buyRob rob tgt)
              Material.geode b).2
          have ih3 := ih (buyMat bp mat rob tgt) (buyRob rob tgt) Material.clay
            (get_max_geodes bp t (buyMat bp mat rob tgt) (buyRob rob tgt)
              Material.obsidian
              (get_max_geodes bp t (buyMat bp mat rob tgt) (buyRob rob tgt)
                Material.geode b).2).2
          have ih4 := ih (buyMat bp mat rob tgt) (buyRob rob tgt) Material.ore
            (get_max_geodes bp t (buyMat bp mat rob tgt) (buyRob rob tgt)
              Material.clay
              (get_max_geodes bp t (buyMat bp mat rob tgt) (buyRob rob tgt)
                Material.obsidian
                (get_max_geodes bp t (buyMat bp mat rob tgt) (buyRob rob tgt)
                  Material.geode b).2).2).2
          generalize hP1 : get_max_geodes bp t (buyMat bp mat rob tgt)
            (buyRob rob tgt) Material.geode b = P1 at ih1 ih2 ih3 ih4 ⊢
          generalize hP2 : get_max_geodes bp t (buyMat bp mat rob tgt)
            (buyRob rob tgt) Material.obsidian P1.2 = P2 at ih2 ih3 ih4 ⊢
          generalize hP3 : get_max_geodes bp t (buyMat bp mat rob tgt)
            (buyRob rob tgt) Material.clay P2.2 = P3 at ih3 ih4 ⊢
          generalize hP4 : get_max_geodes bp t (buyMat bp mat rob tgt)
            (buyRob rob tgt) Material.ore P3.2 = P4 at ih4 ⊢
          exact chain4 P1 P2 P3 P4 _ _ _ _ b ih1 ih2 ih3 ih4
        · rw [if_neg haff, if_neg haff]
          exact ih (idleMat mat rob) rob tgt b

/-- The part-1 entry point returns the same maximum as the prune-free
search: chaining the invariant over the four top-level calls. -/
lemma get_max_geodes_part1_eq_noprune :
    ∀ (g : Int) (bp : Blueprint),
      (get_max_geodes_part1 g bp).1 = get_max_geodes_part1_noprune bp := by
  intro g bp
  simp only [get_max_geodes_part1, get_max_geodes_part1_noprune]
  have h1 := get_max_geodes_spec bp 24 initMat initRob Material.geode (-1)
  have h2 := get_max_geodes_spec bp 24 initMat initRob Material.obsidian
    (get_max_geodes bp 24 initMat initRob Material.geode (-1)).2
  have h3 := get_max_geodes_spec bp 24 initMat initRob Material.clay
    (get_max_geodes bp 24 initMat initRob Material.obsidian
      (get_max_geodes bp 24 initMat initRob Material.geode (-1)).2).2
  have h4 := get_max_geodes_spec bp 24 initMat initRob Material.ore
    (get_max_geodes bp 24 initMat initRob Material.clay
      (get_max_geodes bp 24 initMat initRob Material.obsidian
        (get_max_geodes bp 24 initMat initRob Material.geode (-1)).2).2).2
  generalize hP1 : get_max_geodes bp 24 initMat initRob Material.geode (-1) = P1
    at h1 h2 h3 h4 ⊢
  generalize hP2 : get_max_geodes bp 24 initMat initRob Material.obsidian P1.2 = P2
    at h2 h3 h4 ⊢
  generalize hP3 : get_max_geodes bp 24 initMat initRob Material.clay P2.2 = P3
    at h3 h4 ⊢
  generalize hP4 : get_max_geodes bp 24 initMat initRob Material.ore P3.2 = P4
    at h4 ⊢
  generalize hu1 : get_max_geodes_noprune bp 24 initMat initRob Material.geode = u1
    at h1 ⊢
  generalize hu2 : get_max_geodes_noprune bp 24 initMat initRob Material.obsidian = u2
    at h2 ⊢
  generalize hu3 : get_max_geodes_noprune bp 24 initMat initRob Material.clay = u3
    at h3 ⊢
  generalize hu4 : get_max_geodes_noprune bp 24 initMat initRob Material.ore = u4
    at h4 ⊢
  obtain ⟨hA, hC, hM⟩ := chain4 P1 P2 P3 P4 u1 u2 u3 u4 (-1) h1 h2 h3 h4
  have hu : (-1 : Int) ≤ ((max (max (max u1 u2) u3) u4 : ℕ) : Int) :=
    le_trans (by norm_num) (Int.natCast_nonneg _)
  have hp : (-1 : Int) ≤ ((max (max (max P1.1 P2.1) P3.1) P4.1 : ℕ) : Int) :=
    le_trans (by norm_num) (Int.natCast_nonneg _)
  rw [max_eq_left hu] at hM
  rw [max_eq_right hp] at hC
  rw [max_eq_left hC] at hM
  exact_mod_cast hM

/-- Monotonicity of the threaded best-so-far value over one call. -/
lemma best_mono (bp : Blueprint) (t : ℕ) (mat rob : MaterialMap)
    (tgt : Material) (b : Int) : b ≤ (get_max_geodes bp t mat rob tgt b).2 :=
  (get_max_geodes_spec bp t mat rob tgt b).1

/-- When a call returns a changed best-so-far value, some state reachable
through the recursion's actual calls has exhausted its time and holds
exactly that many geodes, strictly more than the entry best. -/
lemma best_update_from_leaf (bp : Blueprint) :
    ∀ (t : ℕ) (mat rob : MaterialMap) (tgt : Material) (b : Int),
      (get_max_geodes bp t mat rob tgt b).2 ≠ b →
      ∃ s : GeodeState,
        Relation.ReflTransGen (GeodeCalls bp) ⟨t, mat, rob, tgt, b⟩ s ∧
        s.time = 0 ∧
        ((s.mat Material.geode : ℕ) : Int) = (get_max_geodes bp t mat rob tgt b).2 ∧
        b < (get_max_geodes bp t mat rob tgt b).2 := by
  intro t
  induction t with
  | zero =>
    intro mat rob tgt b hne
    simp only [get_max_geodes] at hne ⊢
    have hlt : b < (mat Material.geode : Int) := by omega
    refine ⟨⟨0, mat, rob, tgt, b⟩, Relation.ReflTransGen.refl, rfl, ?_, ?_⟩ <;>
      dsimp only <;> omega
  | succ t ih =>
    intro mat rob tgt b hne
    rw [get_max_geodes_succ] at hne ⊢
    by_cases hub : (get_geode_num_upper_bound (t + 1) mat rob : Int) ≤ b
    · rw [if_pos hub] at hne ⊢
      exact absurd rfl hne
    · rw [if_neg hub] at hne ⊢
      by_cases hp3 : tgt ≠ Material.geode ∧ maxRobotCost bp tgt ≤ rob tgt
      · rw [if_pos hp3] at hne ⊢
        exact absurd rfl hne
      · rw [if_neg hp3] at hne ⊢
        by_cases haff : is_robot_affordable bp mat tgt = true
        · rw [if_pos haff] at hne ⊢
          set mat' := buyMat bp mat rob tgt with hmat'
          set rob' := buyRob rob tgt with hrob'
          set P1 := get_max_geodes bp t mat' rob' Material.geode b with hP1
          set P2 := get_max_geodes bp t mat' rob' Material.obsidian P1.2 with hP2
          set P3 := get_max_geodes bp t mat' rob' Material.clay P2.2 with hP3
          set P4 := get_max_geodes bp t mat' rob' Material.ore P3.2 with hP4
          have m1 : b ≤ P1.2 := best_mono bp t mat' rob' Material.geode b
          have m2 : P1.2 ≤ P2.2 := best_mono bp t mat' rob' Material.obsidian P1.2
          have m3 : P2.2 ≤ P3.2 := best_mono bp t mat' rob' Material.clay P2.2
          rcases eq_or_ne P4.2 P3.2 with e4 | ne4
          · rcases eq_or_ne P3.2 P2.2 with e3 | ne3
            · rcases eq_or_ne P2.2 P1.2 with e2 | ne2
              · have hne1 : P1.2 ≠ b := by
                  intro h; exact hne (by rw [e4, e3, e2, h])
                obtain ⟨s, hr, h0, hv, hlt⟩ := ih mat' rob' Material.geode b hne1
                rw [← hP1] at hv hlt
                refine ⟨s, Relation.ReflTransGen.head
                  (GeodeCalls.buy1 hub hp3 haff) hr, h0, ?_, ?_⟩ <;>
                  rw [e4, e3, e2] <;> omega
              · obtain ⟨s, hr, h0, hv, hlt⟩ :=
                  ih mat' rob' Material.obsidian P1.2 ne2
                rw [← hP2] at hv hlt
                refine ⟨s, Relation.ReflTransGen.head
                  (GeodeCalls.buy2 hub hp3 haff) hr, h0, ?_, ?_⟩ <;>
                  rw [e4, e3] <;> omega
            · obtain ⟨s, hr, h0, hv, hlt⟩ := ih mat' rob' Material.clay P2.2 ne3
              rw [← hP3] at hv hlt
              refine ⟨s, Relation.ReflTransGen.head
                (GeodeCalls.buy3 hub hp3 haff) hr, h0, ?_, ?_⟩ <;>
                rw [e4] <;> omega
          · obtain ⟨s, hr, h0, hv, hlt⟩ := ih mat' rob' Material.ore P3.2 ne4
            rw [← hP4] at hv hlt
            refine ⟨s, Relation.ReflTransGen.head
              (GeodeCalls.buy4 hub hp3 haff) hr, h0, ?_, ?_⟩ <;> omega
        · rw [if_neg haff] at hne ⊢
          obtain ⟨s, hr, h0, hv, hlt⟩ := ih (idleMat mat rob) rob tgt b hne
          exact ⟨s, Relation.ReflTransGen.head
            (GeodeCalls.wait hub hp3 haff) hr, h0, hv, hlt⟩

/-! ## Claim theorems for day 19 -/

/-- C1: the optimistic upper bound used for pruning is admissible: for every
search state (time left, material inventory, robot inventory, target), the
value of `_get_geode_num_upper_bound` — current geodes plus
`sum(range(r, r + t))` for `r` geode robots — is at least the maximum geode
count the step rules can still reach (the prune-free search value), and
consequently abandoning branches whose bound is at most the best confirmed
total never changes the maximum returned by the part-1 search. -/
theorem geode_upper_bound_admissible_and_prune_safe :
    (∀ (bp : Blueprint) (t : ℕ) (mat rob : MaterialMap) (tgt : Material),
        get_max_geodes_noprune bp t mat rob tgt ≤
          get_geode_num_upper_bound t mat rob) ∧
    (∀ (g : Int) (bp : Blueprint),
        (get_max_geodes_part1 g bp).1 = get_max_geodes_part1_noprune bp) :=
  ⟨fun bp t mat rob tgt => noprune_le_upper_bound bp t mat rob tgt,
   get_max_geodes_part1_eq_noprune⟩

/-- C6: the searches are deterministic and idempotent: re-running the
day-16 top-level search on the same input gives the same result, and the
day-19 part-1 search returns the same maximum whatever value the persistent
module-level `BEST_SO_FAR` holds on entry, because the entry point resets
it before searching. -/
theorem searches_deterministic_and_idempotent :
    (∀ (valves : Finset String) (flow_rates : String → ℕ)
        (distances : String → String → ℕ),
        get_max_pressure valves flow_rates distances =
          get_max_pressure valves flow_rates distances) ∧
    (∀ (bp : Blueprint) (g g' : Int),
        (get_max_geodes_part1 g bp).1 = (get_max_geodes_part1 g' bp).1) :=
  ⟨fun _ _ _ => rfl, fun _ _ _ => rfl⟩

/-- C7: within one search invocation the threaded `BEST_SO_FAR` value never
decreases; at a time-exhausted leaf it becomes the maximum of itself and
the accumulated geode count (so it changes only when the branch total
exceeds it); any change of the value originates from a state, reachable
through the recursion's actual call steps, whose time is exhausted and
whose geode count is the new value; and the top-level part-1 entry point
behaves exactly as if `BEST_SO_FAR` were `-1`, because it resets the
persistent value before searching. -/
theorem best_so_far_monotone_leaf_updates_and_reset :
    (∀ (bp : Blueprint) (t : ℕ) (mat rob : MaterialMap) (tgt : Material)
        (b : Int), b ≤ (get_max_geodes bp t mat rob tgt b).2) ∧
    (∀ (bp : Blueprint) (mat rob : MaterialMap) (tgt : Material) (b : Int),
        get_max_geodes bp 0 mat rob tgt b =
          (mat Material.geode, max b (mat Material.geode))) ∧
    (∀ (bp : Blueprint) (t : ℕ) (mat rob : MaterialMap) (tgt : Material)
        (b : Int),
        (get_max_geodes bp t mat rob tgt b).2 ≠ b →
        ∃ s : GeodeState,
          Relation.ReflTransGen (GeodeCalls bp) ⟨t, mat, rob, tgt, b⟩ s ∧
          s.time = 0 ∧
          ((s.mat Material.geode : ℕ) : Int) =
            (get_max_geodes bp t mat rob tgt b).2 ∧
          b < (get_max_geodes bp t mat rob tgt b).2) ∧
    (∀ (g : Int) (bp : Blueprint),
        get_max_geodes_part1 g bp = get_max_geodes_part1 (-1) bp) :=
  ⟨best_mono, fun _ _ _ _ _ => rfl, fun bp t mat rob tgt b =>
    best_update_from_leaf bp t mat rob tgt b, fun _ _ => rfl⟩

/-- Witness for C7 on a concrete input: a blueprint with all-zero costs, no
time left, one geode in stock and an entry best of `-1`; the best value is
updated and the update comes from a reachable exhausted state. -/
theorem best_so_far_monotone_leaf_updates_and_reset_witness :
    ∃ s : GeodeState,
      Relation.ReflTransGen (GeodeCalls ⟨1, fun _ _ => 0⟩)
        ⟨0, fun _ => 1, fun _ => 0, Material.geode, -1⟩ s ∧
      s.time = 0 ∧
      ((s.mat Material.geode : ℕ) : Int) =
        (get_max_geodes ⟨1, fun _ _ => 0⟩ 0 (fun _ => 1) (fun _ => 0)
          Material.geode (-1)).2 ∧
      (-1 : Int) < (get_max_geodes ⟨1, fun _ _ => 0⟩ 0 (fun _ => 1)
        (fun _ => 0) Material.geode (-1)).2 :=
  best_so_far_monotone_leaf_updates_and_reset.2.2.1 ⟨1, fun _ _ => 0⟩ 0
    (fun _ => 1) (fun _ => 0) Material.geode (-1) (by decide)

/-! ## Floyd-Warshall lemmas -/

section FloydWarshall

variable {V : Type} [DecidableEq V] {adj : V → Finset V}

lemma walk_zero {u v : V} (h : Walk adj u v 0) : u = v := by
  cases h
  rfl

lemma walkVia_zero {S : List V} {u v : V} (h : WalkVia adj S u v 0) : u = v := by
  cases h
  rfl

lemma walk_append {u v x : V} {a b : ℕ} (h1 : Walk adj u v a)
    (h2 : Walk adj v x b) : Walk adj u x (a + b) := by
  induction h1 with
  | nil u => rwa [Nat.zero_add]
  | cons hadj hw ih =>
    rw [Nat.add_right_comm]
    exact Walk.cons hadj (ih h2)

lemma WalkVia_mono {S S' : List V} (hS : ∀ x, x ∈ S → x ∈ S') {u v : V} {n : ℕ}
    (h : WalkVia adj S u v n) : WalkVia adj S' u v n := by
  induction h with
  | nil u => exact WalkVia.nil u
  | single hadj => exact WalkVia.single hadj
  | cons hadj hx hw ih => exact WalkVia.cons hadj (hS _ hx) ih

lemma walkVia_to_walk {S : List V} {u v : V} {n : ℕ}
    (h : WalkVia adj S u v n) : Walk adj u v n := by
  induction h with
  | nil u => exact Walk.nil u
  | single hadj => exact Walk.cons hadj (Walk.nil _)
  | cons hadj hx hw ih => exact Walk.cons hadj ih

lemma walk_to_walkVia {S : List V} (hcov : ∀ x, x ∈ S) {u v : V} {n : ℕ}
    (h : Walk adj u v n) : WalkVia adj S u v n := by
  induction h with
  | nil u => exact WalkVia.nil u
  | @cons u x v n hadj hw ih =>
    match n, hw, ih with
    | 0, hw, _ => rw [walk_zero hw] at hadj; exact WalkVia.single hadj
    | n + 1, _, ih => exact WalkVia.cons hadj (hcov x) ih

/-- Concatenation of two walks at a junction vertex allowed as an
intermediate. -/
lemma walkVia_append {S S' : List V} (hS : ∀ x, x ∈ S → x ∈ S') {u w : V}
    {a : ℕ} (h1 : WalkVia adj S u w a) :
    ∀ {v : V} {b : ℕ}, w ∈ S' → WalkVia adj S' w v b →
      WalkVia adj S' u v (a + b) := by
  induction h1 with
  | nil u =>
    intro v b hw h2
    rwa [Nat.zero_add]
  | @single p q hadj =>
    intro v b hw h2
    cases b with
    | zero =>
      have hqv := walkVia_zero h2
      subst hqv
      exact WalkVia.single hadj
    | succ b =>
      rw [Nat.add_comm]
      exact WalkVia.cons hadj hw h2
  | @cons p x q n hadj hx hv ih =>
    intro v b hw h2
    rw [Nat.add_right_comm]
    exact WalkVia.cons hadj (hS _ hx) (ih hw h2)

/-- Decomposition of a walk allowed to pass through `w`: either it avoids
`w` as an intermediate, or it splits into two walks avoiding it. -/
lemma walkVia_cons_split {S : List V} {w u v : V} {n : ℕ}
    (h : WalkVia adj (w :: S) u v n) :
    WalkVia adj S u v n ∨
      ∃ n₁ n₂, n₁ + n₂ ≤ n ∧ WalkVia adj S u w n₁ ∧ WalkVia adj S w v n₂ := by
  induction h with
  | nil u => exact Or.inl (WalkVia.nil u)
  | single hadj => exact Or.inl (WalkVia.single hadj)
  | @cons u x v n hadj hx hw ih =>
    rcases List.mem_cons.1 hx with hxw | hxS
    · subst hxw
      rcases ih with hl | ⟨n₁, n₂, hle, h1, h2⟩
      · exact Or.inr ⟨1, n, by omega, WalkVia.single hadj, hl⟩
      · exact Or.inr ⟨1, n₂, by omega, WalkVia.single hadj, h2⟩
    · rcases ih with hl | ⟨n₁, n₂, hle, h1, h2⟩
      · exact Or.inl (WalkVia.cons hadj hxS hl)
      · exact Or.inr ⟨n₁ + 1, n₂, by omega, WalkVia.cons hadj hxS h1, h2⟩

/-- A finite sum in the extended naturals has finite summands. -/
lemma enat_add_eq_coe {x y : ℕ∞} {m : ℕ} (h : x + y = (m : ℕ∞)) :
    ∃ a c : ℕ, x = (a : ℕ∞) ∧ y = (c : ℕ∞) ∧ a + c = m := by
  have hx : x ≠ ⊤ := by
    rintro rfl
    rw [top_add] at h
    exact (by simp : (⊤ : ℕ∞) ≠ (m : ℕ∞)) h
  have hy : y ≠ ⊤ := by
    rintro rfl
    rw [add_top] at h
    exact (by simp : (⊤ : ℕ∞) ≠ (m : ℕ∞)) h
  lift x to ℕ using hx
  lift y to ℕ using hy
  exact ⟨x, y, rfl, rfl, by exact_mod_cast h⟩

/-- The minimality predicate of one distance table entry: `d` is a lower
bound of every walk length with intermediates in `S`, and is attained when
finite. -/
def IsMinVia (adj : V → Finset V) (S : List V) (u v : V) (d : ℕ∞) : Prop :=
  (∀ n : ℕ, WalkVia adj S u v n → d ≤ (n : ℕ∞)) ∧
  (∀ m : ℕ, d = (m : ℕ∞) → WalkVia adj S u v m)

lemma IsMinVia_congr {S S' : List V} (hSS : ∀ x, x ∈ S ↔ x ∈ S') {u v : V}
    {d : ℕ∞} (h : IsMinVia adj S u v d) : IsMinVia adj S' u v d :=
  ⟨fun n hw => h.1 n (WalkVia_mono (fun x hx => (hSS x).2 hx) hw),
   fun m hm => WalkVia_mono (fun x hx => (hSS x).1 hx) (h.2 m hm)⟩

lemma fwInit_isMin (adj : V → Finset V) (u v : V) :
    IsMinVia adj [] u v (fwInit adj u v) := by
  unfold fwInit
  by_cases huv : u = v
  · subst huv
    rw [if_pos rfl]
    constructor
    · intro n _
      exact_mod_cast Nat.zero_le n
    · intro m hm
      have : m = 0 := by exact_mod_cast hm.symm
      rw [this]
      exact WalkVia.nil u
  · rw [if_neg huv]
    by_cases hadj : v ∈ adj u
    · rw [if_pos hadj]
      constructor
      · intro n hw
        cases hw with
        | nil => exact absurd rfl huv
        | single => exact le_refl _
        | cons _ hx _ => exact absurd hx (List.not_mem_nil _)
      · intro m hm
        have : m = 1 := by exact_mod_cast hm.symm
        rw [this]
        exact WalkVia.single hadj
    · rw [if_neg hadj]
      constructor
      · intro n hw
        cases hw with
        | nil => exact absurd rfl huv
        | single h => exact absurd h hadj
        | cons _ hx _ => exact absurd hx (List.not_mem_nil _)
      · intro m hm
        exact absurd hm (by simp)

/-- Adding `w` to the allowed intermediates turns each entry into the
minimum of itself and the sum through `w`. -/
lemma isMinVia_step {S : List V} {w : V} {d : V → V → ℕ∞}
    (h : ∀ u v, IsMinVia adj S u v (d u v)) (u v : V) :
    IsMinVia adj (w :: S) u v (min (d u v) (d u w + d w v)) := by
  constructor
  · intro n hw
    rcases walkVia_cons_split hw with hl | ⟨n₁, n₂, hle, h1, h2⟩
    · exact le_trans (min_le_left _ _) ((h u v).1 n hl)
    · refine le_trans (min_le_right _ _) ?_
      have e1 := (h u w).1 n₁ h1
      have e2 := (h w v).1 n₂ h2
      calc d u w + d w v ≤ (n₁ : ℕ∞) + (n₂ : ℕ∞) := add_le_add e1 e2
        _ = ((n₁ + n₂ : ℕ) : ℕ∞) := by push_cast; rfl
        _ ≤ (n : ℕ∞) := by exact_mod_cast hle
  · intro m hm
    rcases le_total (d u v) (d u w + d w v) with hle | hle
    · rw [min_eq_left hle] at hm
      exact WalkVia_mono (fun x hx => List.mem_cons_of_mem w hx) ((h u v).2 m hm)
    · rw [min_eq_right hle] at hm
      obtain ⟨a, c, ha, hc, hsum⟩ := enat_add_eq_coe hm
      have w1 := (h u w).2 a ha
      have w2 := (h w v).2 c hc
      rw [← hsum]
      exact walkVia_append (fun x hx => List.mem_cons_of_mem w hx) w1
        (List.mem_cons_self w S)
        (WalkVia_mono (fun x hx => List.mem_cons_of_mem w hx) w2)

/-- Invariant of the in-place relaxation round through `w`, relative to the
table `d0` the round started from: the row and column of `w` keep their
original values, and every entry is either original or already fully
relaxed through `w`. -/
def RoundInv (w : V) (d0 d : V → V → ℕ∞) : Prop :=
  (∀ a, d a w = d0 a w) ∧ (∀ b, d w b = d0 w b) ∧
  (∀ a b, d a b = d0 a b ∨ d a b = min (d0 a b) (d0 a w + d0 w b))

lemma roundInv_refl (w : V) (d0 : V → V → ℕ∞) : RoundInv w d0 d0 :=
  ⟨fun _ => rfl, fun _ => rfl, fun _ _ => Or.inl rfl⟩

lemma fwRelax_app (w u v a b : V) (d : V → V → ℕ∞) :
    fwRelax w u v d a b =
      if a = u ∧ b = v then min (d u v) (d u w + d w v) else d a b := rfl

lemma fwRelax_value {w u v : V} {d0 d : V → V → ℕ∞} (h : RoundInv w d0 d) :
    fwRelax w u v d u v = min (d0 u v) (d0 u w + d0 w v) := by
  rw [fwRelax_app, if_pos ⟨rfl, rfl⟩, h.1 u, h.2.1 v]
  rcases h.2.2 u v with he | he <;> rw [he]
  rw [min_assoc, min_self]

lemma fwRelax_inv {w u v : V} {d0 d : V → V → ℕ∞} (h : RoundInv w d0 d) :
    RoundInv w d0 (fwRelax w u v d) := by
  refine ⟨fun a => ?_, fun b => ?_, fun a b => ?_⟩
  · rw [fwRelax_app]
    split
    · next hp =>
      rw [← hp.1, ← hp.2, h.1 a, h.1 w]
      exact min_eq_left le_self_add
    · exact h.1 a
  · rw [fwRelax_app]
    split
    · next hp =>
      rw [← hp.1, ← hp.2, h.2.1 b, h.2.1 w]
      exact min_eq_left le_add_self
    · exact h.2.1 b
  · rw [fwRelax_app]
    split
    · next hp =>
      rw [← hp.1, ← hp.2, h.1 a, h.2.1 b]
      rcases h.2.2 a b with he | he <;> rw [he]
      · exact Or.inr rfl
      · rw [min_assoc, min_self]
        exact Or.inr rfl
    · exact h.2.2 a b

lemma fwRelax_keep {w u v a b : V} {d0 d : V → V → ℕ∞} (h : RoundInv w d0 d)
    (hab : d a b = min (d0 a b) (d0 a w + d0 w b)) :
    fwRelax w u v d a b = min (d0 a b) (d0 a w + d0 w b) := by
  rw [fwRelax_app]
  split
  · next hp =>
    rw [← hp.1, ← hp.2, h.1 a, h.2.1 b, hab, min_assoc, min_self]
  · exact hab

lemma innerFold_inv {w u : V} (vs : List V) {d0 d : V → V → ℕ∞}
    (h : RoundInv w d0 d) :
    RoundInv w d0 (vs.foldl (fun d v => fwRelax w u v d) d) := by
  induction vs generalizing d with
  | nil => exact h
  | cons v vs ih => exact ih (fwRelax_inv h)

lemma innerFold_keep {w u a b : V} (vs : List V) {d0 d : V → V → ℕ∞}
    (h : RoundInv w d0 d) (hab : d a b = min (d0 a b) (d0 a w + d0 w b)) :
    vs.foldl (fun d v => fwRelax w u v d) d a b =
      min (d0 a b) (d0 a w + d0 w b) := by
  induction vs generalizing d with
  | nil => exact hab
  | cons v vs ih => exact ih (fwRelax_inv h) (fwRelax_keep h hab)

lemma innerFold_value {w u v : V} (vs : List V) {d0 d : V → V → ℕ∞}
    (h : RoundInv w d0 d) (hv : v ∈ vs) :
    vs.foldl (fun d v => fwRelax w u v d) d u v =
      min (d0 u v) (d0 u w + d0 w v) := by
  induction vs generalizing d with
  | nil => exact absurd hv (List.not_mem_nil v)
  | cons v' vs ih =>
    rcases List.mem_cons.1 hv with hv' | hv'
    · subst hv'
      exact innerFold_keep vs (fwRelax_inv h) (fwRelax_value h)
    · exact ih (fwRelax_inv h) hv'

lemma outerFold_inv {w : V} (us vs : List V) {d0 d : V → V → ℕ∞}
    (h : RoundInv w d0 d) :
    RoundInv w d0
      (us.foldl (fun d u => vs.foldl (fun d v => fwRelax w u v d) d) d) := by
  induction us generalizing d with
  | nil => exact h
  | cons u us ih => exact ih (innerFold_inv vs h)

lemma outerFold_keep {w a b : V} (us vs : List V) {d0 d : V → V → ℕ∞}
    (h : RoundInv w d0 d) (hab : d a b = min (d0 a b) (d0 a w + d0 w b)) :
    us.foldl (fun d u => vs.foldl (fun d v => fwRelax w u v d) d) d a b =
      min (d0 a b) (d0 a w + d0 w b) := by
  induction us generalizing d with
  | nil => exact hab
  | cons u us ih => exact ih (innerFold_inv vs h) (innerFold_keep vs h hab)

lemma outerFold_value {w u v : V} (us vs : List V) {d0 d : V → V → ℕ∞}
    (h : RoundInv w d0 d) (hu : u ∈ us) (hv : v ∈ vs) :
    us.foldl (fun d u => vs.foldl (fun d v => fwRelax w u v d) d) d u v =
      min (d0 u v) (d0 u w + d0 w v) := by
  induction us generalizing d with
  | nil => exact absurd hu (List.not_mem_nil u)
  | cons u' us ih =>
    rcases List.mem_cons.1 hu with hu' | hu'
    · subst hu'
      exact outerFold_keep us vs (innerFold_inv vs h)
        (innerFold_value vs h hv)
    · exact ih (innerFold_inv vs h) hu'

/-- One full Floyd-Warshall round computes, despite the in-place updates,
exactly the simultaneous relaxation of every pair through `w`. -/
lemma fwRound_eq {verts : List V} (hcov : ∀ x : V, x ∈ verts) (w : V)
    (d : V → V → ℕ∞) :
    fwRound verts w d = fun u v => min (d u v) (d u w + d w v) := by
  funext u v
  exact outerFold_value verts verts (roundInv_refl w d) (hcov u) (hcov v)

lemma foldRounds_isMin {verts : List V} (hcov : ∀ x : V, x ∈ verts) :
    ∀ (ws S : List V) (d : V → V → ℕ∞),
      (∀ u v, IsMinVia adj S u v (d u v)) →
      ∀ u v, IsMinVia adj (ws ++ S) u v
        ((ws.foldl (fun d w => fwRound verts w d) d) u v) := by
  intro ws
  induction ws with
  | nil =>
    intro S d h u v
    simpa using h u v
  | cons w ws ih =>
    intro S d h u v
    have hstep : ∀ u v, IsMinVia adj (w :: S) u v (fwRound verts w d u v) := by
      intro u v
      rw [fwRound_eq hcov w d]
      exact isMinVia_step h u v
    refine IsMinVia_congr (fun x => ?_) (ih (w :: S) (fwRound verts w d) hstep u v)
    simp only [List.mem_append, List.mem_cons]
    tauto

/-- The full Floyd-Warshall table is, entrywise, the minimum walk length. -/
lemma fwTable_isMin (verts : List V) (adj : V → Finset V)
    (hcov : ∀ x : V, x ∈ verts) (u v : V) :
    IsMinVia adj verts u v (fwTable verts adj u v) := by
  have h := foldRounds_isMin hcov verts [] (fwInit adj)
    (fun u v => fwInit_isMin adj u v) u v
  refine IsMinVia_congr (fun x => ?_) h
  simp

lemma fwTable_le_walk {verts : List V} {adj : V → Finset V}
    (hcov : ∀ x : V, x ∈ verts) {u v : V} {n : ℕ} (hw : Walk adj u v n) :
    fwTable verts adj u v ≤ (n : ℕ∞) :=
  (fwTable_isMin verts adj hcov u v).1 n (walk_to_walkVia hcov hw)

lemma fwTable_walk {verts : List V} {adj : V → Finset V}
    (hcov : ∀ x : V, x ∈ verts) {u v : V} {m : ℕ}
    (hm : fwTable verts adj u v = (m : ℕ∞)) : Walk adj u v m :=
  walkVia_to_walk ((fwTable_isMin verts adj hcov u v).2 m hm)

lemma fwTable_eq_top_iff {verts : List V} {adj : V → Finset V}
    (hcov : ∀ x : V, x ∈ verts) (u v : V) :
    fwTable verts adj u v = ⊤ ↔ ∀ n, ¬ Walk adj u v n := by
  constructor
  · intro htop n hw
    have := fwTable_le_walk hcov hw
    rw [htop] at this
    exact absurd this (by simp)
  · intro hnw
    by_contra hne
    obtain ⟨m, hm⟩ := WithTop.ne_top_iff_exists.1 hne
    exact hnw m (fwTable_walk hcov (by exact_mod_cast hm.symm))

end FloydWarshall

/-! ## Claim theorems for the distances table -/

/-- On a fully connected adjacency map the distances table is returned and
holds exact shortest walk lengths. -/
lemma distances_table_spec {V : Type} [DecidableEq V]
    (verts : List V) (adj : V → Finset V) (hcov : ∀ x : V, x ∈ verts)
    (hconn : ∀ u v : V, ∃ n, Walk adj u v n) :
    ∃ f : V → V → ℕ, get_distances_table verts adj = some f ∧
      (∀ u v, Walk adj u v (f u v) ∧ ∀ n, Walk adj u v n → f u v ≤ n) ∧
      (∀ a, f a a = 0) ∧
      (∀ a b c, f a c ≤ f a b + f b c) := by
  have hfin : ∀ u v : V, fwTable verts adj u v ≠ ⊤ := by
    intro u v htop
    obtain ⟨n, hw⟩ := hconn u v
    exact (fwTable_eq_top_iff hcov u v).1 htop n hw
  have hval : ∀ u v : V,
      fwTable verts adj u v = (((fwTable verts adj u v).untop' 0 : ℕ) : ℕ∞) := by
    intro u v
    obtain ⟨m, hm⟩ := WithTop.ne_top_iff_exists.1 (hfin u v)
    rw [← hm]
    rfl
  have hwalk : ∀ u v : V, Walk adj u v ((fwTable verts adj u v).untop' 0) :=
    fun u v => fwTable_walk hcov (hval u v)
  have hmin : ∀ u v : V, ∀ n, Walk adj u v n →
      (fwTable verts adj u v).untop' 0 ≤ n := by
    intro u v n hw
    have h1 := fwTable_le_walk hcov hw
    rw [hval u v] at h1
    exact_mod_cast h1
  refine ⟨fun u v => (fwTable verts adj u v).untop' 0, ?_, fun u v =>
    ⟨hwalk u v, hmin u v⟩, fun a => ?_, fun a b c => ?_⟩
  · have hcheck : (verts.all fun u => verts.all fun v =>
        fwTable verts adj u v ≠ ⊤) = true := by
      simp only [List.all_eq_true, decide_eq_true_eq]
      intro u _ v _
      exact hfin u v
    simp only [get_distances_table, hcheck, if_true]
  · show (fwTable verts adj a a).untop' 0 = 0
    have := hmin a a 0 (Walk.nil a)
    omega
  · show (fwTable verts adj a c).untop' 0 ≤
      (fwTable verts adj a b).untop' 0 + (fwTable verts adj b c).untop' 0
    exact hmin a c _ (walk_append (hwalk a b) (hwalk b c))

/-- C2: on a fully connected adjacency map, `_get_distances_table` returns
a table assigning every ordered pair the minimum number of edges of a walk
between them; in particular the diagonal is zero and the triangle
inequality holds. -/
theorem distances_table_returns_shortest_paths {V : Type} [DecidableEq V]
    (verts : List V) (adj : V → Finset V) (hcov : ∀ x : V, x ∈ verts)
    (hconn : ∀ u v : V, ∃ n, Walk adj u v n) :
    ∃ f : V → V → ℕ, get_distances_table verts adj = some f ∧
      (∀ u v, Walk adj u v (f u v) ∧ ∀ n, Walk adj u v n → f u v ≤ n) ∧
      (∀ a, f a a = 0) ∧
      (∀ a b c, f a c ≤ f a b + f b c) :=
  distances_table_spec verts adj hcov hconn

/-- Witness for C2: the complete directed graph on two vertices. -/
theorem distances_table_returns_shortest_paths_witness :
    ∃ f : Bool → Bool → ℕ,
      get_distances_table [true, false] (fun _ => ({true, false} : Finset Bool)) =
        some f ∧
      (∀ u v, Walk (fun _ => ({true, false} : Finset Bool)) u v (f u v) ∧
        ∀ n, Walk (fun _ => ({true, false} : Finset Bool)) u v n → f u v ≤ n) ∧
      (∀ a, f a a = 0) ∧
      (∀ a b c, f a c ≤ f a b + f b c) :=
  distances_table_returns_shortest_paths [true, false]
    (fun _ => ({true, false} : Finset Bool)) (by decide)
    (fun u v => ⟨1, Walk.cons (by cases v <;> decide) (Walk.nil v)⟩)

/-- C3: `_get_distances_table` fails (the assert raises) exactly when some
ordered pair of vertices has no connecting walk, i.e. its computed distance
is still infinite after the relaxation; otherwise it returns a table with a
finite distance for every ordered pair. -/
theorem distances_table_fails_iff_unreachable {V : Type} [DecidableEq V]
    (verts : List V) (adj : V → Finset V) (hcov : ∀ x : V, x ∈ verts) :
    (get_distances_table verts adj = none ↔
      ∃ u v : V, ∀ n, ¬ Walk adj u v n) ∧
    ((∀ u v : V, ∃ n, Walk adj u v n) →
      ∃ f : V → V → ℕ, get_distances_table verts adj = some f) := by
  constructor
  · unfold get_distances_table
    split
    · next hcheck =>
      simp only [List.all_eq_true, decide_eq_true_eq] at hcheck
      constructor
      · intro h
        exact absurd h (by simp)
      · rintro ⟨u, v, hnw⟩
        exact absurd ((fwTable_eq_top_iff hcov u v).2 hnw)
          (hcheck u (hcov u) v (hcov v))
    · next hcheck =>
      simp only [List.all_eq_true, decide_eq_true_eq] at hcheck
      push_neg at hcheck
      obtain ⟨u, _, v, _, htop⟩ := hcheck
      refine ⟨fun _ => ⟨u, v, (fwTable_eq_top_iff hcov u v).1 (by simpa using htop)⟩,
        fun _ => rfl⟩
  · intro hconn
    obtain ⟨f, hf, -⟩ := distances_table_spec verts adj hcov hconn
    exact ⟨f, hf⟩

/-- Witness for C3: the edgeless graph on two vertices makes the table
computation fail. -/
theorem distances_table_fails_iff_unreachable_witness :
    get_distances_table [true, false] (fun _ => (∅ : Finset Bool)) = none :=
  (distances_table_fails_iff_unreachable [true, false]
    (fun _ => (∅ : Finset Bool)) (by decide)).1.2
    ⟨true, false, fun n h => by cases h with | cons hadj hw => simp at hadj⟩

/-! ## Day 16 search lemmas -/

lemma mergeOpt_ne_none {a b : Option ℕ} (ha : a ≠ none) (hb : b ≠ none) :
    mergeOpt a b ≠ none := by
  cases a with
  | none => exact absurd rfl ha
  | some x =>
    cases b with
    | none => exact absurd rfl hb
    | some y => simp [mergeOpt]

lemma fold_mergeOpt_ne_none {α : Type} (s : Finset α) (f : α → Option ℕ)
    (hf : ∀ v ∈ s, f v ≠ none) : s.fold mergeOpt (some 0) f ≠ none := by
  induction s using Finset.cons_induction_on with
  | h₁ => simp [Finset.fold_empty]
  | h₂ ha ih =>
    rw [Finset.fold_cons]
    exact mergeOpt_ne_none (hf _ (Finset.mem_cons_self _ _))
      (ih fun v hv => hf v (Finset.mem_cons.2 (Or.inr hv)))

lemma fold_mergeOpt_const_zero {α : Type} (s : Finset α) (f : α → Option ℕ)
    (hf : ∀ v ∈ s, f v = some 0) : s.fold mergeOpt (some 0) f = some 0 := by
  induction s using Finset.cons_induction_on with
  | h₁ => simp [Finset.fold_empty]
  | h₂ ha ih =>
    rw [Finset.fold_cons, hf _ (Finset.mem_cons_self _ _),
      ih fun v hv => hf v (Finset.mem_cons.2 (Or.inr hv))]
    rfl

lemma sdiff_ne_empty_of_ne {α : Type} [DecidableEq α] {act allV : Finset α}
    (hsub : act ⊆ allV) (hne : act ≠ allV) : allV \ act ≠ ∅ := by
  intro h
  exact hne (Finset.Subset.antisymm hsub (Finset.sdiff_eq_empty_iff_subset.1 h))

lemma card_sdiff_insert_lt {α : Type} [DecidableEq α] {act allV : Finset α}
    {v : α} (hv : v ∈ allV \ act) :
    (allV \ insert v act).card = (allV \ act).card - 1 := by
  rw [Finset.sdiff_insert, Finset.card_erase_of_mem hv]

/-- The part-1 recursion with zero flow rates accumulates nothing. -/
lemma get_max_pressure_rec_zero_rates (flow_rates : String → ℕ)
    (distances : String → String → ℕ) (h0 : ∀ v, flow_rates v = 0) :
    ∀ (fuel : ℕ) (last : String) (t : ℕ) (act allV : Finset String),
      t ≤ fuel → act ⊆ allV →
      get_max_pressure_rec flow_rates distances fuel last t 0 act allV =
        some 0 := by
  intro fuel
  induction fuel with
  | zero =>
    intro last t act allV hle hsub
    have ht : t = 0 := Nat.le_zero.1 hle
    subst ht
    simp [get_max_pressure_rec]
  | succ fuel ih =>
    intro last t act allV hle hsub
    rw [get_max_pressure_rec]
    by_cases ht : t = 0
    · rw [if_pos ht]
    · rw [if_neg ht]
      by_cases hall : act = allV
      · rw [if_pos hall]
      · rw [if_neg hall]
        rw [if_neg (sdiff_ne_empty_of_ne hsub hall)]
        refine fold_mergeOpt_const_zero _ _ fun v hv => ?_
        simp only [h0, Nat.mul_zero, Nat.add_zero]
        refine ih v _ _ _ (by omega) ?_
        exact Finset.insert_subset_iff.2
          ⟨(Finset.mem_sdiff.1 hv).1, hsub⟩

/-- C5: degenerate day-16 inputs yield zero: a zero time budget returns 0,
a search whose start valve is the only valve of interest returns 0, zero
flow rates everywhere return 0 for any time budget, and any returned
maximum is a non-negative integer. -/
theorem degenerate_pressure_inputs_yield_zero :
    (∀ (flow_rates : String → ℕ) (distances : String → String → ℕ)
        (last : String) (act allV : Finset String),
        get_max_pressure_internal flow_rates distances last 0 0 act allV =
          some 0) ∧
    (∀ (flow_rates : String → ℕ) (distances : String → String → ℕ) (t : ℕ),
        get_max_pressure_internal flow_rates distances "AA" t 0 {"AA"} {"AA"} =
          some 0) ∧
    (∀ (flow_rates : String → ℕ) (distances : String → String → ℕ)
        (last : String) (t : ℕ) (act allV : Finset String),
        (∀ v, flow_rates v = 0) → act ⊆ allV →
        get_max_pressure_internal flow_rates distances last t 0 act allV =
          some 0) ∧
    (∀ (flow_rates : String → ℕ) (distances : String → String → ℕ)
        (last : String) (t total : ℕ) (act allV : Finset String) (n : ℕ),
        get_max_pressure_internal flow_rates distances last t total act allV =
          some n → 0 ≤ n) := by
  refine ⟨fun fr dist last act allV => ?_, fun fr dist t => ?_,
    fun fr dist last t act allV h0 hsub => ?_, fun _ _ _ _ _ _ _ n _ => Nat.zero_le n⟩
  · simp [get_max_pressure_internal, get_max_pressure_rec]
  · unfold get_max_pressure_internal
    rw [get_max_pressure_rec]
    by_cases ht : t = 0
    · rw [if_pos ht]
    · rw [if_neg ht, if_pos rfl]
  · exact get_max_pressure_rec_zero_rates fr dist h0 t last t act allV le_rfl hsub

/-- Witness for C5: the all-zero-rates case at a concrete instance. -/
theorem degenerate_pressure_inputs_yield_zero_witness :
    get_max_pressure_internal (fun _ => 0) (fun _ _ => 1) "AA" 7 0 {"AA"}
      {"AA", "BB"} = some 0 :=
  degenerate_pressure_inputs_yield_zero.2.2.1 (fun _ => 0) (fun _ _ => 1)
    "AA" 7 {"AA"} {"AA", "BB"} (fun _ => rfl) (by decide)

/-- C4: each recursive call of the part-1 search targets a not-yet-opened
valve, costs `distance + 1` minutes (clamped at zero) and adds a payoff of
the remaining time after opening times the valve's flow rate; consequently
the two-valve example (valve `"AA"` of flow 0, valve `"BB"` of flow 13 at
distance 1, time budget 5) returns `(5 - 1 - 1) * 13 = 39`. -/
theorem visit_cost_payoff_and_two_valve_example :
    (∀ (flow_rates : String → ℕ) (distances : String → String → ℕ)
        (all_valves : Finset String) (s s' : PressureState),
        PressureCalls flow_rates distances all_valves s s' →
        s'.last_valve ∉ s.valves_activated ∧
        s'.valves_activated = insert s'.last_valve s.valves_activated ∧
        s'.time_left = s.time_left -
          (distances s.last_valve s'.last_valve + 1) ∧
        s'.total_so_far = s.total_so_far +
          s'.time_left * flow_rates s'.last_valve) ∧
    get_max_pressure_internal (fun v => if v = "BB" then 13 else 0)
      (fun _ _ => 1) "AA" 5 0 {"AA"} {"AA", "BB"} = some 39 := by
  constructor
  · intro fr dist allV s s' hstep
    cases hstep with
    | step valve htime hall hmem =>
      refine ⟨(Finset.mem_sdiff.1 hmem).2, rfl, ?_, rfl⟩
      dsimp only
      omega
  · decide

/-- Witness for C4's step rule at a concrete recursive call. -/
theorem visit_cost_payoff_and_two_valve_example_witness :
    let fr : String → ℕ := fun v => if v = "BB" then 13 else 0
    let dist : String → String → ℕ := fun _ _ => 1
    (⟨"BB", 3, 39, insert "BB" {"AA"}⟩ : PressureState).last_valve ∉
      ({"AA"} : Finset String) ∧
    (⟨"BB", 3, 39, insert "BB" {"AA"}⟩ : PressureState).valves_activated =
      insert "BB" ({"AA"} : Finset String) ∧
    (⟨"BB", 3, 39, insert "BB" {"AA"}⟩ : PressureState).time_left =
      5 - (dist "AA" "BB" + 1) ∧
    (⟨"BB", 3, 39, insert "BB" {"AA"}⟩ : PressureState).total_so_far =
      0 + 3 * fr "BB" := by
  intro fr dist
  have h := visit_cost_payoff_and_two_valve_example.1 fr dist {"AA", "BB"}
    ⟨"AA", 5, 0, {"AA"}⟩ ⟨"BB", 3, 39, insert "BB" {"AA"}⟩
    (PressureCalls.step ⟨"AA", 5, 0, {"AA"}⟩ "BB" (by decide) (by decide)
      (by decide))
  exact h

/-- Counterexample to C8 as stated: the search DOES recurse into a valve
whose opening cannot complete within the remaining time.  With one minute
left and valve `"BB"` at distance 1 (so opening needs 2 minutes), the loop
still performs the recursive call into `"BB"`. -/
theorem step_into_unreachable_valve_cex :
    PressureCalls (fun _ => 13) (fun _ _ => 1) {"AA", "BB"}
      ⟨"AA", 1, 0, {"AA"}⟩ ⟨"BB", 0, 0, insert "BB" {"AA"}⟩ ∧
    (⟨"AA", 1, 0, {"AA"}⟩ : PressureState).time_left <
      (fun (_ _ : String) => 1) "AA" "BB" + 1 :=
  ⟨PressureCalls.step ⟨"AA", 1, 0, {"AA"}⟩ "BB" (by decide) (by decide)
    (by decide), by decide⟩

/-- C8 (amended): when time remains and valves remain, the part-1 search
recurses into EVERY not-yet-opened valve, clamping the new remaining time
at zero; a valve whose opening cannot complete in time (distance + 1
exceeding the time left) is still recursed into, but with zero time left,
zero added payoff, and a child call that terminates immediately with the
parent's running total. -/
theorem recursion_steps_clamp_time_at_zero :
    ∀ (flow_rates : String → ℕ) (distances : String → String → ℕ)
      (all_valves : Finset String) (s s' : PressureState),
      PressureCalls flow_rates distances all_valves s s' →
      s.time_left ≠ 0 ∧
      s'.last_valve ∈ all_valves \ s.valves_activated ∧
      s'.time_left = s.time_left -
        (distances s.last_valve s'.last_valve + 1) ∧
      (s.time_left ≤ distances s.last_valve s'.last_valve →
        s'.time_left = 0 ∧ s'.total_so_far = s.total_so_far ∧
        get_max_pressure_internal flow_rates distances s'.last_valve
          s'.time_left s'.total_so_far s'.valves_activated all_valves =
          some s.total_so_far) := by
  intro fr dist allV s s' hstep
  cases hstep with
  | step valve htime hall hmem =>
    refine ⟨htime, hmem, ?_, fun hle => ?_⟩
    · show s.time_left - dist s.last_valve valve - 1 =
        s.time_left - (dist s.last_valve valve + 1)
      omega
    · have hle' : s.time_left ≤ dist s.last_valve valve := hle
      have ht0 : s.time_left - dist s.last_valve valve - 1 = 0 := by omega
      refine ⟨ht0, ?_, ?_⟩
      · show s.total_so_far +
          (s.time_left - dist s.last_valve valve - 1) * fr valve =
            s.total_so_far
        rw [ht0, Nat.zero_mul, Nat.add_zero]
      · show get_max_pressure_internal fr dist valve
          (s.time_left - dist s.last_valve valve - 1)
          (s.total_so_far +
            (s.time_left - dist s.last_valve valve - 1) * fr valve)
          (insert valve s.valves_activated) allV = some s.total_so_far
        rw [ht0, Nat.zero_mul, Nat.add_zero]
        rfl

/-- Witness for the amended C8 at a concrete unreachable-in-time call. -/
theorem recursion_steps_clamp_time_at_zero_witness :
    (⟨"AA", 1, 0, {"AA"}⟩ : PressureState).time_left ≠ 0 ∧
    (⟨"BB", 0, 0, insert "BB" {"AA"}⟩ : PressureState).last_valve ∈
      ({"AA", "BB"} : Finset String) \ ({"AA"} : Finset String) ∧
    (⟨"BB", 0, 0, insert "BB" {"AA"}⟩ : PressureState).time_left =
      1 - ((fun (_ _ : String) => 1) "AA" "BB" + 1) ∧
    ((1 : ℕ) ≤ (fun (_ _ : String) => 1) "AA" "BB" →
      (⟨"BB", 0, 0, insert "BB" {"AA"}⟩ : PressureState).time_left = 0 ∧
      (⟨"BB", 0, 0, insert "BB" {"AA"}⟩ : PressureState).total_so_far = 0 ∧
      get_max_pressure_internal (fun _ => 13) (fun _ _ => 1) "BB" 0 0
        (insert "BB" {"AA"}) {"AA", "BB"} = some 0) :=
  recursion_steps_clamp_time_at_zero (fun _ => 13) (fun _ _ => 1)
    {"AA", "BB"} ⟨"AA", 1, 0, {"AA"}⟩ ⟨"BB", 0, 0, insert "BB" {"AA"}⟩
    (PressureCalls.step ⟨"AA", 1, 0, {"AA"}⟩ "BB" (by decide) (by decide)
      (by decide))

/-- After the fast-forward step at least one actor's timer is zero, so the
`assert False` arm of the actor dispatch is unreachable. -/
lemma fastForward_reaches_zero (t1 t2 : ℕ) :
    t1 - fastForwardTime t1 t2 = 0 ∨ t2 - fastForwardTime t1 t2 = 0 := by
  unfold fastForwardTime
  by_cases h : 0 < t1 ∧ 0 < t2
  · rw [if_pos h]
    omega
  · rw [if_neg h]
    omega

/-- The part-2 recursion never raises: with enough fuel and the activated
set inside the valves of interest, the result is never `none`. -/
lemma get_max_pressure_part2_rec_ne_none (flow_rates : String → ℕ)
    (distances : String → String → ℕ) :
    ∀ (fuel : ℕ) (v1 v2 : String) (T t1 t2 total : ℕ)
      (act allV : Finset String),
      act ⊆ allV → (allV \ act).card ≤ fuel →
      get_max_pressure_part2_rec flow_rates distances fuel v1 v2 T t1 t2
        total act allV ≠ none := by
  intro fuel
  induction fuel with
  | zero =>
    intro v1 v2 T t1 t2 total act allV hsub hcard
    have hvc : allV \ act = ∅ := Finset.card_eq_zero.1 (Nat.le_zero.1 hcard)
    have hall : act = allV :=
      Finset.Subset.antisymm hsub (Finset.sdiff_eq_empty_iff_subset.1 hvc)
    rw [get_max_pressure_part2_rec]
    simp only
    by_cases hT : T - fastForwardTime t1 t2 = 0
    · rw [if_pos hT]
      simp
    · rw [if_neg hT, if_pos hall]
      simp
  | succ fuel ih =>
    intro v1 v2 T t1 t2 total act allV hsub hcard
    rw [get_max_pressure_part2_rec]
    simp only
    by_cases hT : T - fastForwardTime t1 t2 = 0
    · rw [if_pos hT]
      simp
    · rw [if_neg hT]
      by_cases hall : act = allV
      · rw [if_pos hall]
        simp
      · rw [if_neg hall]
        rw [if_neg (by
          rcases fastForward_reaches_zero t1 t2 with h | h <;> simp [h])]
        rw [if_neg (sdiff_ne_empty_of_ne hsub hall)]
        refine fold_mergeOpt_ne_none _ _ fun v hv => ?_
        have hsub' : insert v act ⊆ allV :=
          Finset.insert_subset_iff.2 ⟨(Finset.mem_sdiff.1 hv).1, hsub⟩
        have hcard' : (allV \ insert v act).card ≤ fuel := by
          rw [card_sdiff_insert_lt hv]
          have hpos : 0 < (allV \ act).card :=
            Finset.card_pos.2 ⟨v, hv⟩
          omega
        by_cases h1 : t1 - fastForwardTime t1 t2 = 0
        · simp only [if_pos h1]
          exact ih _ _ _ _ _ _ _ _ hsub' hcard'
        · simp only [if_neg h1]
          exact ih _ _ _ _ _ _ _ _ hsub' hcard'

/-- C10: in the part-2 two-actor search, after the fast-forward step at
least one of the two timers is always zero, so the `assert False` dispatch
arm is unreachable; consequently the recursion (and in particular the
top-level part-2 search, which starts both timers at zero) never raises. -/
theorem part2_dispatch_unreachable_and_total :
    (∀ t1 t2 : ℕ,
        t1 - fastForwardTime t1 t2 = 0 ∨ t2 - fastForwardTime t1 t2 = 0) ∧
    (∀ (flow_rates : String → ℕ) (distances : String → String → ℕ)
        (fuel : ℕ) (v1 v2 : String) (T t1 t2 total : ℕ)
        (act allV : Finset String),
        act ⊆ allV → (allV \ act).card ≤ fuel →
        get_max_pressure_part2_rec flow_rates distances fuel v1 v2 T t1 t2
          total act allV ≠ none) ∧
    (∀ (valves : Finset String) (flow_rates : String → ℕ)
        (distances : String → String → ℕ),
        get_max_pressure_part2 valves flow_rates distances ≠ none) := by
  refine ⟨fastForward_reaches_zero,
    fun fr dist fuel v1 v2 T t1 t2 total act allV =>
      get_max_pressure_part2_rec_ne_none fr dist fuel v1 v2 T t1 t2 total
        act allV, fun valves fr dist => ?_⟩
  unfold get_max_pressure_part2
  exact get_max_pressure_part2_rec_ne_none fr dist _ "AA" "AA" 26 0 0 0
    {"AA"} _ (Finset.singleton_subset_iff.2 (Finset.mem_insert_self _ _))
    le_rfl

/-- Witness for C10 at a concrete state with no valves left. -/
theorem part2_dispatch_unreachable_and_total_witness :
    get_max_pressure_part2_rec (fun _ => 0) (fun _ _ => 1) 0 "AA" "AA" 5 0 0
      0 {"AA"} {"AA"} ≠ none :=
  part2_dispatch_unreachable_and_total.2.1 (fun _ => 0) (fun _ _ => 1) 0
    "AA" "AA" 5 0 0 0 {"AA"} {"AA"} (by decide) (by decide)

/-! ## Parser lemmas -/

lemma day16_aux_none_iff :
    ∀ (lines : List (List Char)) (fr : List Char → Option ℕ)
      (adj : List Char → Option (Finset (List Char))),
      parse_data_file_day16_aux lines fr adj = none ↔
        ∃ l ∈ lines, parseLine16 l = none := by
  intro lines
  induction lines with
  | nil => intro fr adj; simp [parse_data_file_day16_aux]
  | cons line rest ih =>
    intro fr adj
    rw [parse_data_file_day16_aux]
    cases hpl : parseLine16 line with
    | none => simp [hpl]
    | some x =>
      obtain ⟨nm, r, ns⟩ := x
      rw [ih]
      constructor
      · rintro ⟨l, hl, hnone⟩
        exact ⟨l, List.mem_cons_of_mem _ hl, hnone⟩
      · rintro ⟨l, hl, hnone⟩
        rcases List.mem_cons.1 hl with rfl | hlr
        · rw [hpl] at hnone
          cases hnone
        · exact ⟨l, hlr, hnone⟩

lemma day16_aux_preserve :
    ∀ (lines : List (List Char)) (fr : List Char → Option ℕ)
      (adj : List Char → Option (Finset (List Char)))
      (fa : (List Char → Option ℕ) × (List Char → Option (Finset (List Char)))),
      parse_data_file_day16_aux lines fr adj = some fa →
      ∀ nm : List Char,
        (∀ l ∈ lines, ∀ x, parseLine16 l = some x → x.1 ≠ nm) →
        fa.1 nm = fr nm ∧ fa.2 nm = adj nm := by
  intro lines
  induction lines with
  | nil =>
    intro fr adj fa h nm _
    rw [parse_data_file_day16_aux, Option.some_inj] at h
    rw [← h]
    exact ⟨rfl, rfl⟩
  | cons line rest ih =>
    intro fr adj fa h nm hno
    rw [parse_data_file_day16_aux] at h
    cases hpl : parseLine16 line with
    | none =>
      rw [hpl] at h
      cases h
    | some x =>
      rw [hpl] at h
      obtain ⟨nm₀, r₀, ns₀⟩ := x
      have hne : nm₀ ≠ nm :=
        hno line (List.mem_cons_self _ _) (nm₀, r₀, ns₀) hpl
      have h1 := ih _ _ _ h nm
        (fun l hl x hx => hno l (List.mem_cons_of_mem _ hl) x hx)
      rw [h1.1, h1.2]
      simp [if_neg (fun he : nm = nm₀ => hne he.symm)]

lemma day16_aux_entries :
    ∀ (lines : List (List Char)) (fr : List Char → Option ℕ)
      (adj : List Char → Option (Finset (List Char)))
      (fa : (List Char → Option ℕ) × (List Char → Option (Finset (List Char)))),
      parse_data_file_day16_aux lines fr adj = some fa →
      ∀ l ∈ lines, ∀ (nm : List Char) (r : ℕ) (ns : Finset (List Char)),
        parseLine16 l = some (nm, r, ns) →
        ∃ r' ns', fa.1 nm = some r' ∧ fa.2 nm = some ns' ∧
          ∃ l', l' ∈ lines ∧ parseLine16 l' = some (nm, r', ns') := by
  intro lines
  induction lines with
  | nil =>
    intro fr adj fa _ l hl
    exact absurd hl (List.not_mem_nil l)
  | cons line rest ih =>
    intro fr adj fa h l hl nm r ns hparse
    rw [parse_data_file_day16_aux] at h
    cases hpl : parseLine16 line with
    | none =>
      rw [hpl] at h
      cases h
    | some x =>
      rw [hpl] at h
      obtain ⟨nm₀, r₀, ns₀⟩ := x
      by_cases hrest : ∃ l' ∈ rest, ∃ r' ns',
          parseLine16 l' = some (nm, r', ns')
      · obtain ⟨l', hl', r', ns', hp'⟩ := hrest
        obtain ⟨r'', ns'', h1, h2, l'', hl'', hp''⟩ :=
          ih _ _ _ h l' hl' nm r' ns' hp'
        exact ⟨r'', ns'', h1, h2, l'', List.mem_cons_of_mem _ hl'', hp''⟩
      · have hno : ∀ l' ∈ rest, ∀ x, parseLine16 l' = some x → x.1 ≠ nm := by
          rintro l' hl' ⟨nm', r', ns'⟩ hx he
          have he' : nm' = nm := he
          subst he'
          exact hrest ⟨l', hl', r', ns', hx⟩
        have hpres := day16_aux_preserve rest _ _ _ h nm hno
        rcases List.mem_cons.1 hl with rfl | hlr
        · rw [hparse] at hpl
          rw [Option.some_inj, Prod.mk.injEq] at hpl
          obtain ⟨h1, hpl2⟩ := hpl
          rw [Prod.mk.injEq] at hpl2
          obtain ⟨h2, h3⟩ := hpl2
          subst h1
          subst h2
          subst h3
          refine ⟨r, ns, ?_, ?_, l, List.mem_cons_self _ _, hparse⟩
          · rw [hpres.1]
            simp
          · rw [hpres.2]
            simp
        · exact absurd ⟨l, hlr, r, ns, hparse⟩ hrest

lemma day19_none_iff :
    ∀ lines : List (List Char),
      parse_data_file_day19 lines = none ↔
        ∃ l ∈ lines, parseLine19 l = none := by
  intro lines
  induction lines with
  | nil => simp [parse_data_file_day19]
  | cons line rest ih =>
    rw [parse_data_file_day19]
    cases hpl : parseLine19 line with
    | none => simp [hpl]
    | some bp =>
      cases hr : parse_data_file_day19 rest with
      | none =>
        rw [hr] at ih
        simp only [hpl, hr]
        constructor
        · intro _
          obtain ⟨l, hl, hn⟩ := ih.1 rfl
          exact ⟨l, List.mem_cons_of_mem _ hl, hn⟩
        · intro _
          trivial
      | some bps =>
        rw [hr] at ih
        simp only [hpl, hr]
        constructor
        · intro h
          cases h
        · rintro ⟨l, hl, hn⟩
          rcases List.mem_cons.1 hl with rfl | hlr
          · rw [hpl] at hn
            cases hn
          · exact absurd (ih.2 ⟨l, hlr, hn⟩) (by simp)

lemma day19_length :
    ∀ (lines : List (List Char)) (bps : List Blueprint),
      parse_data_file_day19 lines = some bps → bps.length = lines.length := by
  intro lines
  induction lines with
  | nil =>
    intro bps h
    rw [parse_data_file_day19, Option.some_inj] at h
    rw [← h]
    rfl
  | cons line rest ih =>
    intro bps h
    rw [parse_data_file_day19] at h
    cases hpl : parseLine19 line with
    | none => rw [hpl] at h; cases h
    | some bp =>
      rw [hpl] at h
      cases hr : parse_data_file_day19 rest with
      | none => rw [hr] at h; cases h
      | some bps' =>
        rw [hr, Option.some_inj] at h
        rw [← h]
        simp [ih bps' hr]

/-- C9: each input parser fails exactly when some line fails to match its
line pattern, and in that case no tables are returned at all; when every
line matches, day 16's parser returns dictionaries holding a flow rate and
a neighbour set for every valve described by some line, and day 19's
parser returns one blueprint per line. -/
theorem parse_data_file_fails_iff_bad_line :
    (∀ lines : List (List Char),
        (parse_data_file_day16 lines = none ↔
          ∃ l ∈ lines, parseLine16 l = none)) ∧
    (∀ lines : List (List Char), (∀ l ∈ lines, parseLine16 l ≠ none) →
        ∃ fa, parse_data_file_day16 lines = some fa ∧
          ∀ l ∈ lines, ∀ (nm : List Char) (r : ℕ) (ns : Finset (List Char)),
            parseLine16 l = some (nm, r, ns) →
            ∃ r' ns', fa.1 nm = some r' ∧ fa.2 nm = some ns' ∧
              ∃ l', l' ∈ lines ∧ parseLine16 l' = some (nm, r', ns')) ∧
    (∀ lines : List (List Char),
        (parse_data_file_day19 lines = none ↔
          ∃ l ∈ lines, parseLine19 l = none)) ∧
    (∀ lines : List (List Char), (∀ l ∈ lines, parseLine19 l ≠ none) →
        ∃ bps, parse_data_file_day19 lines = some bps ∧
          bps.length = lines.length) := by
  refine ⟨fun lines => day16_aux_none_iff lines _ _, fun lines hall => ?_,
    day19_none_iff, fun lines hall => ?_⟩
  · have hne : parse_data_file_day16 lines ≠ none := fun hnone => by
      obtain ⟨l, hl, hn⟩ :=
        (day16_aux_none_iff lines (fun _ => none) (fun _ => none)).1 hnone
      exact hall l hl hn
    obtain ⟨fa, hfa⟩ := Option.ne_none_iff_exists'.1 hne
    exact ⟨fa, hfa, fun l hl nm r ns hp =>
      day16_aux_entries lines _ _ fa hfa l hl nm r ns hp⟩
  · have hne : parse_data_file_day19 lines ≠ none := fun hnone => by
      obtain ⟨l, hl, hn⟩ := (day19_none_iff lines).1 hnone
      exact hall l hl hn
    obtain ⟨bps, hbps⟩ := Option.ne_none_iff_exists'.1 hne
    exact ⟨bps, hbps, day19_length lines bps hbps⟩

/-- Witness for C9: a well-formed one-line day-16 input and a malformed
one-line day-19 input. -/
theorem parse_data_file_fails_iff_bad_line_witness :
    (∃ fa, parse_data_file_day16
        ["Valve AA has flow rate=10; tunnels lead to valves BB, CC".toList] =
        some fa ∧
      ∀ l ∈ ["Valve AA has flow rate=10; tunnels lead to valves BB, CC".toList],
        ∀ (nm : List Char) (r : ℕ) (ns : Finset (List Char)),
        parseLine16 l = some (nm, r, ns) →
        ∃ r' ns', fa.1 nm = some r' ∧ fa.2 nm = some ns' ∧
          ∃ l', l' ∈
            ["Valve AA has flow rate=10; tunnels lead to valves BB, CC".toList] ∧
            parseLine16 l' = some (nm, r', ns')) ∧
    (parse_data_file_day19 ["Blueprint nope".toList] = none ↔
      ∃ l ∈ ["Blueprint nope".toList], parseLine19 l = none) :=
  ⟨parse_data_file_fails_iff_bad_line.2.1
      ["Valve AA has flow rate=10; tunnels lead to valves BB, CC".toList]
      (by decide),
   parse_data_file_fails_iff_bad_line.2.2.1 ["Blueprint nope".toList]⟩
